import Mathlib

/-
Verification of the myapp update-daemon and version utilities.

The definitions below are a shallow embedding of the Python sources:
  - src/myapp/version_utils.py : parse_version, compare_versions,
    is_update_available, format_version
  - src/myapp/daemon.py : UpdateDaemon (_get_pid, _is_running, start, stop,
    _run, _restart_myapp)

Strings are modelled as List Char.  Python builtins used by the sources
(str.strip, str.lstrip, str.split, int(), f-string formatting of ints)
are modelled explicitly.  The int() model covers optional surrounding
whitespace, one optional sign and a nonempty run of ASCII decimal digits,
which is the fragment exercised by the sources.
-/

/-- ASCII whitespace, as stripped by Python str.strip with no argument. -/
def pyWs (c : Char) : Bool :=
  c = ' ' || c = '\t' || c = '\n' || c = '\x0d' || c = '\x0b' || c = '\x0c'

/-- Python str.lstrip (whitespace form). -/
def pyLstrip (l : List Char) : List Char := l.dropWhile pyWs

/-- Python str.rstrip (whitespace form). -/
def pyRstrip (l : List Char) : List Char := (l.reverse.dropWhile pyWs).reverse

/-- Python str.strip (whitespace form). -/
def pyStrip (l : List Char) : List Char := pyRstrip (pyLstrip l)

/-- Python str.split with a one-character separator: splits at every
occurrence of the separator and keeps empty segments, so the result always
has at least one element. -/
def pySplit (sep : Char) : List Char → List (List Char)
  | [] => [[]]
  | c :: cs =>
    if c = sep then [] :: pySplit sep cs
    else
      match pySplit sep cs with
      | [] => [[c]]
      | s :: rest => (c :: s) :: rest

/-- Value of a decimal digit list, most significant first. -/
def digitsToNat (l : List Char) : Nat :=
  l.foldl (fun a c => 10 * a + (c.toNat - 48)) 0

/-- A nonempty all-digit string to a Nat; none otherwise. -/
def natFromDigits (l : List Char) : Option Nat :=
  if l.isEmpty then none
  else if l.all Char.isDigit then some (digitsToNat l) else none

/-- Python int() on a string: strip whitespace, optional sign, digits. -/
def pyInt (l : List Char) : Option Int :=
  match pyStrip l with
  | [] => none
  | c :: rest =>
    if c = '+' then (natFromDigits rest).map Int.ofNat
    else if c = '-' then (natFromDigits rest).map (fun n => -Int.ofNat n)
    else (natFromDigits (c :: rest)).map Int.ofNat

/-- Character for a digit value below ten. -/
def digChar (d : Nat) : Char := Char.ofNat (48 + d)

/-- Decimal digits of a positive number, most significant first; the first
argument is structural fuel, sufficient whenever it is at least the number. -/
def natReprAux : Nat → Nat → List Char
  | _, 0 => []
  | 0, _ + 1 => []
  | fuel + 1, n + 1 => natReprAux fuel ((n + 1) / 10) ++ [digChar ((n + 1) % 10)]

/-- Python decimal formatting of a nonnegative integer. -/
def natRepr (n : Nat) : List Char :=
  if n = 0 then ['0'] else natReprAux n n

/-- Python decimal formatting of an integer (f-string of an int). -/
def intRepr (i : Int) : List Char :=
  if i < 0 then '-' :: natRepr i.natAbs else natRepr i.toNat

/-
version_utils.py
-/

/-- parse_version from version_utils.py: strip whitespace, drop leading
v characters, split on every dash taking parts[0] as the main version and
int(parts[1]) as the release when a dash is present, then split the main
version on dots and convert up to three components with int(). -/
def parse_version (s : List Char) : Option (Int × Int × Int × Int) :=
  let version := (pyStrip s).dropWhile (fun c => c = 'v')
  let parts := pySplit '-' version
  let main_version := parts.headD []
  let releaseOpt := if 1 < parts.length then pyInt (parts.getD 1 []) else some 0
  let vps := pySplit '.' main_version
  let majorOpt := if 0 < vps.length then pyInt (vps.getD 0 []) else some 0
  let minorOpt := if 1 < vps.length then pyInt (vps.getD 1 []) else some 0
  let patchOpt := if 2 < vps.length then pyInt (vps.getD 2 []) else some 0
  match majorOpt, minorOpt, patchOpt, releaseOpt with
  | some major, some minor, some patch, some release => some (major, minor, patch, release)
  | _, _, _, _ => none

/-- Python comparison on 4-tuples of ints, as a boolean. -/
def tupleLtPy (a b : Int × Int × Int × Int) : Bool :=
  decide (a.1 < b.1) ||
    (decide (a.1 = b.1) &&
      (decide (a.2.1 < b.2.1) ||
        (decide (a.2.1 = b.2.1) &&
          (decide (a.2.2.1 < b.2.2.1) ||
            (decide (a.2.2.1 = b.2.2.1) && decide (a.2.2.2 < b.2.2.2))))))

/-- compare_versions from version_utils.py; none models the ValueError
raised on an unparsable argument. -/
def compare_versions (current latest : List Char) : Option Int :=
  match parse_version current, parse_version latest with
  | some ct, some lt => some (if tupleLtPy ct lt then -1 else if tupleLtPy lt ct then 1 else 0)
  | _, _ => none

/-- is_update_available from version_utils.py. -/
def is_update_available (current latest : List Char) : Option Bool :=
  (compare_versions current latest).map (fun r => decide (r < 0))

/-- format_version from version_utils.py. -/
def format_version (major minor patch release : Int) : List Char :=
  if 0 < release then
    intRepr major ++ '.' :: intRepr minor ++ '.' :: intRepr patch ++ '-' :: intRepr release
  else
    intRepr major ++ '.' :: intRepr minor ++ '.' :: intRepr patch

/-- The lexicographic strict order on 4-tuples, stated independently of the
implementation, used to express what Python tuple comparison computes. -/
def lexLt4 (a b : Int × Int × Int × Int) : Prop :=
  a.1 < b.1 ∨ (a.1 = b.1 ∧ (a.2.1 < b.2.1 ∨ (a.2.1 = b.2.1 ∧
    (a.2.2.1 < b.2.2.1 ∨ (a.2.2.1 = b.2.2.1 ∧ a.2.2.2 < b.2.2.2)))))

/-
daemon.py : UpdateDaemon
The operating-system interaction is made explicit: the PID file content is
an Option (List Char), process liveness is a function argument, and the
side effects of each method are returned as a trace of effect markers in
program order.
-/

namespace UpdateDaemon

/-- UpdateDaemon._get_pid: int(contents.strip()) of the PID file, with the
sentinel 0 on a missing file (FileNotFoundError) or unparsable content
(ValueError). -/
def get_pid (pidFile : Option (List Char)) : Int :=
  match pidFile with
  | none => 0
  | some content =>
    match pyInt (pyStrip content) with
    | some n => n
    | none => 0

/-- UpdateDaemon._is_running: sentinel 0 means not running; otherwise probe
the process with signal 0; on OSError remove the stale PID file and report
not running.  Returns the verdict together with the PID file afterwards. -/
def is_running (pidFile : Option (List Char)) (alive : Int → Bool) :
    Bool × Option (List Char) :=
  let pid := get_pid pidFile
  if pid = 0 then (false, pidFile)
  else if alive pid then (true, pidFile)
  else (false, none)

/-- Effect markers of UpdateDaemon.stop, in program order. -/
inductive StopEff where
  | logNotRunning
  | sigTerm (pid : Int)
  | checkAlive (pid : Int)
  | sleepPoll
  | sigKill (pid : Int)
  | logStopped
  | logFailed
  | removePid
deriving DecidableEq

/-- The bounded wait loop of UpdateDaemon.stop: up to fuel iterations, each
probing the process (os.kill(pid, 0)) and sleeping 0.1s while it is alive;
the first probe that raises OSError breaks out.  alive is indexed by the
running count of kill system calls issued by stop; the boolean result tells
whether the loop ran to completion (the for-else branch). -/
def stopPoll (pid : Int) (alive : Nat → Bool) : Nat → Nat → List StopEff × Bool
  | _, 0 => ([], true)
  | t, fuel + 1 =>
    if alive t then
      let r := stopPoll pid alive (t + 1) fuel
      (StopEff.checkAlive pid :: StopEff.sleepPoll :: r.1, r.2)
    else ([StopEff.checkAlive pid], false)

/-- UpdateDaemon.stop: read the PID (0 means "not running", nothing else
happens); otherwise send SIGTERM inside a try block — a dead target raises
OSError at once, which is caught and logged — then poll for death up to 30
times, SIGKILL on loop completion, and remove the PID file in all cases of
the nonzero branch.  Kill call number 0 is the SIGTERM, numbers 1 to 30 are
the polls, number 31 is the SIGKILL. -/
def stop (pidFile : Option (List Char)) (alive : Nat → Bool) :
    Option (List Char) × List StopEff :=
  let pid := get_pid pidFile
  if pid = 0 then (pidFile, [StopEff.logNotRunning])
  else if alive 0 then
    let r := stopPoll pid alive 1 30
    if r.2 then
      (none, StopEff.sigTerm pid :: r.1 ++ [StopEff.sigKill pid] ++
        (if alive 31 then [StopEff.logStopped] else [StopEff.logFailed]) ++
        [StopEff.removePid])
    else
      (none, StopEff.sigTerm pid :: r.1 ++ [StopEff.logStopped, StopEff.removePid])
  else (none, [StopEff.sigTerm pid, StopEff.logFailed, StopEff.removePid])

/-- Effect markers of UpdateDaemon.start, in program order. -/
inductive StartEff where
  | logAlreadyRunning
  | logStarting
  | daemonize
  | writePid (pid : Int)
  | registerCleanup
  | registerSignalHandlers
  | logStarted
  | enterRunLoop
deriving DecidableEq

/-- UpdateDaemon.start: if _is_running() reports true the call only logs
"already running" and returns; otherwise it optionally daemonizes, writes
the PID file, registers the atexit cleanup and the signal handlers, sets
running and enters the main loop. -/
def start (daemonFlag : Bool) (pidFile : Option (List Char))
    (alive : Int → Bool) (selfPid : Nat) : Option (List Char) × List StartEff :=
  let r := is_running pidFile alive
  if r.1 then (r.2, [StartEff.logAlreadyRunning])
  else
    (some (natRepr selfPid),
      [StartEff.logStarting] ++
      (if daemonFlag then [StartEff.daemonize] else []) ++
      [StartEff.writePid (selfPid : Int), StartEff.registerCleanup,
       StartEff.registerSignalHandlers, StartEff.logStarted, StartEff.enterRunLoop])

/-- One tick of the _run loop as seen from outside: the wall clock value,
the outcome of check_and_update (ok updated, or a raised exception), and
whether a termination signal arrived during this tick (flipping running
before the next loop test). -/
structure TickInput where
  now : Int
  result : Except (List Char) Bool
  signal : Bool

/-- Effect markers of the _run loop body, in program order. -/
inductive RunEff where
  | logChecking
  | logUpdated
  | restartApp
  | logError (msg : List Char)
  | sleepTick
  | logStopped
deriving DecidableEq

/-- The due test of _run: now - last_check >= timedelta(seconds=interval);
none models the initial datetime.min, below every clock value. -/
def dueAt (interval : Int) (lastCheck : Option Int) (now : Int) : Bool :=
  match lastCheck with
  | none => true
  | some lc => decide (interval ≤ now - lc)

/-- One body iteration of UpdateDaemon._run: when the interval has elapsed,
run check_and_update inside try/except — an installed update triggers the
restart procedure, an exception is logged — and set last_check to now in
every due case; then sleep one tick. -/
def run_tick (interval : Int) (lastCheck : Option Int) (t : TickInput) :
    Option Int × List RunEff :=
  if dueAt interval lastCheck t.now then
    let cycleEffs :=
      match t.result with
      | Except.ok true => [RunEff.logChecking, RunEff.logUpdated, RunEff.restartApp]
      | Except.ok false => [RunEff.logChecking]
      | Except.error e => [RunEff.logChecking, RunEff.logError e]
    (some t.now, cycleEffs ++ [RunEff.sleepTick])
  else (lastCheck, [RunEff.sleepTick])

/-- UpdateDaemon._run over a finite schedule of tick inputs: the loop body
runs once per tick while running stays true; a signal during a tick makes
the next loop test fail, after which the loop logs and exits.  An exhausted
schedule likewise ends the trace. -/
def run_loop (interval : Int) (lastCheck : Option Int) :
    List TickInput → Option Int × List RunEff
  | [] => (lastCheck, [RunEff.logStopped])
  | t :: ts =>
    let r := run_tick interval lastCheck t
    if t.signal then (r.1, r.2 ++ [RunEff.logStopped])
    else
      let rest := run_loop interval r.1 ts
      (rest.1, r.2 ++ rest.2)

/-- The three privilege-transition mechanisms of _restart_myapp, in source
order: runuser -u, sudo -u, su - -c. -/
inductive Method where
  | runuser
  | sudo
  | su
deriving DecidableEq

/-- Outcome of one subprocess.run launch attempt: normal completion, a
TimeoutExpired after 10 seconds, or another raised exception. -/
inductive LaunchOutcome where
  | completed
  | timedOut
  | raisedError
deriving DecidableEq

/-- Effect markers of the privileged restart loop, in program order. -/
inductive RestartEff where
  | tryMethod (m : Method)
  | sleepAfterLaunch (m : Method)
  | scanForApp (m : Method)
  | logSuccess (m : Method)
  | logMethodFailed (m : Method)
  | logTimeout (m : Method)
  | logMethodError (m : Method)
  | logAllFailed
deriving DecidableEq

/-- The method loop of _restart_myapp (privileged branch): each method is
launched; on TimeoutExpired or another exception the failure is logged and
the next method is tried — the sleep and pgrep re-scan are skipped by the
raised exception; on completion the loop sleeps 2 seconds and re-scans
with pgrep, returning at once when a matching process is found and logging
the failure otherwise.  Exhausting the list logs that all methods failed. -/
def tryMethods (launch : Method → LaunchOutcome) (scanOk : Method → Bool) :
    List Method → Bool × List RestartEff
  | [] => (false, [RestartEff.logAllFailed])
  | m :: ms =>
    match launch m with
    | LaunchOutcome.timedOut =>
      let r := tryMethods launch scanOk ms
      (r.1, RestartEff.tryMethod m :: RestartEff.logTimeout m :: r.2)
    | LaunchOutcome.raisedError =>
      let r := tryMethods launch scanOk ms
      (r.1, RestartEff.tryMethod m :: RestartEff.logMethodError m :: r.2)
    | LaunchOutcome.completed =>
      if scanOk m then
        (true, [RestartEff.tryMethod m, RestartEff.sleepAfterLaunch m,
                RestartEff.scanForApp m, RestartEff.logSuccess m])
      else
        let r := tryMethods launch scanOk ms
        (r.1, RestartEff.tryMethod m :: RestartEff.sleepAfterLaunch m ::
              RestartEff.scanForApp m :: RestartEff.logMethodFailed m :: r.2)

/-- The fixed order of mechanisms in the source. -/
def methodOrder : List Method := [Method.runuser, Method.sudo, Method.su]

/-- The privileged branch of _restart_myapp, entered when a session user
and uid were located. -/
def restart_privileged (launch : Method → LaunchOutcome) (scanOk : Method → Bool) :
    Bool × List RestartEff :=
  tryMethods launch scanOk methodOrder

/-- The methods actually attempted, read off an effect trace. -/
def methodsTried (effs : List RestartEff) : List Method :=
  effs.filterMap (fun e =>
    match e with
    | RestartEff.tryMethod m => some m
    | _ => none)

/-- The first method in source order whose launch completes and whose
re-scan finds a live matching process. -/
def firstWinner (launch : Method → LaunchOutcome) (scanOk : Method → Bool) :
    Option Method :=
  methodOrder.find? (fun m => decide (launch m = LaunchOutcome.completed) && scanOk m)

/-- The session-locator cascade of _restart_myapp, lines 237 to 320: the
three probes (loginctl sessions, /run/user scan, X socket ownership) run in
order inside one try block; a probe that raises an exception transfers
control to the except clause, which logs a warning — the remaining probes
are skipped.  Each probe either raises or reports an optional username.
Result: the located username and whether the warning was logged. -/
def locate_user (p1 p2 p3 : Except (List Char) (Option (List Char))) :
    Option (List Char) × Bool :=
  match p1 with
  | Except.error _ => (none, true)
  | Except.ok (some u) => (some u, false)
  | Except.ok none =>
    match p2 with
    | Except.error _ => (none, true)
    | Except.ok (some u) => (some u, false)
    | Except.ok none =>
      match p3 with
      | Except.error _ => (none, true)
      | Except.ok (some u) => (some u, false)
      | Except.ok none => (none, false)

/-- The cascade as the claim describes it: each probe individually
protected, so a raising probe is skipped and the later probes still run.
Stated from the claim wording, for comparison with locate_user. -/
def locate_user_resilient (p1 p2 p3 : Except (List Char) (Option (List Char))) :
    Option (List Char) :=
  (match p1 with
   | Except.ok (some u) => some u
   | _ => none).orElse (fun _ =>
  (match p2 with
   | Except.ok (some u) => some u
   | _ => none).orElse (fun _ =>
  (match p3 with
   | Except.ok (some u) => some u
   | _ => none)))

/-- Which launch branch _restart_myapp takes at line 363: the privileged
method loop needs both a username and a uid, anything else falls back to a
direct unprivileged Popen. -/
inductive LaunchPath where
  | privileged
  | fallback
deriving DecidableEq

/-- The branch decision of _restart_myapp at line 363. -/
def restart_dispatch (user : Option (List Char)) (uid : Option Int) : LaunchPath :=
  match user, uid with
  | some _, some _ => LaunchPath.privileged
  | _, _ => LaunchPath.fallback

end UpdateDaemon

/-- The parse algorithm as claim C8 words it: the string is split on the
LAST dash, the release ordinal is the integer after that final dash, and
everything before the final dash is the main version.  Stated from the
claim wording, for comparison with parse_version. -/
def parse_version_lastdash (s : List Char) : Option (Int × Int × Int × Int) :=
  let version := (pyStrip s).dropWhile (fun c => c = 'v')
  let parts := pySplit '-' version
  let main_version :=
    if 1 < parts.length then List.intercalate ['-'] parts.dropLast else parts.headD []
  let releaseOpt := if 1 < parts.length then pyInt (parts.getLastD []) else some 0
  let vps := pySplit '.' main_version
  let majorOpt := if 0 < vps.length then pyInt (vps.getD 0 []) else some 0
  let minorOpt := if 1 < vps.length then pyInt (vps.getD 1 []) else some 0
  let patchOpt := if 2 < vps.length then pyInt (vps.getD 2 []) else some 0
  match majorOpt, minorOpt, patchOpt, releaseOpt with
  | some major, some minor, some patch, some release => some (major, minor, patch, release)
  | _, _, _, _ => none

/-- The parse algorithm with the split expressed at the FIRST dash: the
main version is everything before the first dash, the release ordinal is
the integer in the segment between the first and the second dash (0 when
no dash is present), and everything after a second dash is ignored.  This
is the amended form of claim C8, to be proved equal to parse_version. -/
def parse_version_firstdash (s : List Char) : Option (Int × Int × Int × Int) :=
  let version := (pyStrip s).dropWhile (fun c => c = 'v')
  let main_version := version.takeWhile (fun c => ¬ (c = '-'))
  let afterFirst := version.drop (main_version.length + 1)
  let releaseOpt :=
    if ('-') ∈ version then pyInt (afterFirst.takeWhile (fun c => ¬ (c = '-')))
    else some 0
  let vps := pySplit '.' main_version
  let majorOpt := if 0 < vps.length then pyInt (vps.getD 0 []) else some 0
  let minorOpt := if 1 < vps.length then pyInt (vps.getD 1 []) else some 0
  let patchOpt := if 2 < vps.length then pyInt (vps.getD 2 []) else some 0
  match majorOpt, minorOpt, patchOpt, releaseOpt with
  | some major, some minor, some patch, some release => some (major, minor, patch, release)
  | _, _, _, _ => none

/-
Helper lemmas on the Python string primitives.
-/

theorem pySplit_ne_nil (sep : Char) (l : List Char) : pySplit sep l ≠ [] := by
  induction l with
  | nil => simp [pySplit]
  | cons c cs ih =>
    simp only [pySplit]
    split
    · simp
    · rcases h : pySplit sep cs with _ | ⟨s, rest⟩
      · exact absurd h ih
      · simp [h]

theorem pySplit_headD (sep : Char) (l : List Char) :
    (pySplit sep l).headD [] = l.takeWhile (fun c => ¬ (c = sep)) := by
  induction l with
  | nil => simp [pySplit]
  | cons c cs ih =>
    simp only [pySplit, List.takeWhile_cons]
    by_cases hc : c = sep
    · simp [hc]
    · rcases h : pySplit sep cs with _ | ⟨s, rest⟩
      · exact absurd h (pySplit_ne_nil sep cs)
      · rw [h] at ih
        simp only [List.headD_cons] at ih
        simp [hc, h, ih]

theorem pySplit_getD_one (sep : Char) (l : List Char) :
    (pySplit sep l).getD 1 [] =
      (l.drop ((l.takeWhile (fun c => ¬ (c = sep))).length + 1)).takeWhile
        (fun c => ¬ (c = sep)) := by
  induction l with
  | nil => simp [pySplit]
  | cons c cs ih =>
    by_cases hc : c = sep
    · subst hc
      have hh := pySplit_headD c cs
      rcases h : pySplit c cs with _ | ⟨s, rest⟩
      · exact absurd h (pySplit_ne_nil c cs)
      · rw [h] at hh
        simp only [List.headD_cons] at hh
        simp [pySplit, h, List.takeWhile_cons, hh]
    · rcases h : pySplit sep cs with _ | ⟨s, rest⟩
      · exact absurd h (pySplit_ne_nil sep cs)
      · rw [h] at ih
        simp only [pySplit, if_neg hc, h]
        simp only [List.getD_cons_succ] at ih ⊢
        rw [ih]
        simp [List.takeWhile_cons, hc]

theorem pySplit_length_gt_one (sep : Char) (l : List Char) :
    1 < (pySplit sep l).length ↔ sep ∈ l := by
  induction l with
  | nil => simp [pySplit]
  | cons c cs ih =>
    by_cases hc : c = sep
    · subst hc
      have hlen := List.length_pos.mpr (pySplit_ne_nil c cs)
      rw [show pySplit c (c :: cs) = [] :: pySplit c cs from by simp [pySplit]]
      simp only [List.length_cons, List.mem_cons, true_or, iff_true]
      omega
    · rcases h : pySplit sep cs with _ | ⟨s, rest⟩
      · exact absurd h (pySplit_ne_nil sep cs)
      · rw [h] at ih
        simp only [pySplit, if_neg hc, h, List.length_cons, List.mem_cons] at ih ⊢
        constructor
        · intro hlt
          exact Or.inr (ih.mp (by omega))
        · intro hm
          rcases hm with he | hm
          · exact absurd he.symm hc
          · have := ih.mpr hm
            omega

theorem mem_pySplit_not_mem (sep : Char) (l : List Char) :
    ∀ s ∈ pySplit sep l, sep ∉ s := by
  induction l with
  | nil => simp [pySplit]
  | cons c cs ih =>
    simp only [pySplit]
    by_cases hc : c = sep
    · rw [if_pos hc]
      intro s hs
      rcases List.mem_cons.mp hs with h | h
      · simp [h]
      · exact ih s h
    · rw [if_neg hc]
      rcases h : pySplit sep cs with _ | ⟨s0, rest⟩
      · exact absurd h (pySplit_ne_nil sep cs)
      · intro s hs
        rcases List.mem_cons.mp hs with h1 | h1
        · subst h1
          intro hmem
          rcases List.mem_cons.mp hmem with h2 | h2
          · exact hc h2.symm
          · exact ih s0 (by rw [h]; exact List.mem_cons_self s0 rest) h2
        · exact ih s (by rw [h]; exact List.mem_cons_of_mem s0 h1)

theorem mem_of_mem_pySplit (sep : Char) (l : List Char) :
    ∀ s ∈ pySplit sep l, ∀ x ∈ s, x ∈ l := by
  induction l with
  | nil => simp [pySplit]
  | cons c cs ih =>
    simp only [pySplit]
    by_cases hc : c = sep
    · rw [if_pos hc]
      intro s hs x hx
      rcases List.mem_cons.mp hs with h | h
      · subst h; simp at hx
      · exact List.mem_cons_of_mem c (ih s h x hx)
    · rw [if_neg hc]
      rcases h : pySplit sep cs with _ | ⟨s0, rest⟩
      · exact absurd h (pySplit_ne_nil sep cs)
      · intro s hs x hx
        rcases List.mem_cons.mp hs with h1 | h1
        · subst h1
          rcases List.mem_cons.mp hx with h2 | h2
          · exact h2 ▸ List.mem_cons_self c cs
          · exact List.mem_cons_of_mem c
              (ih s0 (by rw [h]; exact List.mem_cons_self s0 rest) x h2)
        · exact List.mem_cons_of_mem c
            (ih s (by rw [h]; exact List.mem_cons_of_mem s0 h1) x hx)

theorem pySplit_no_sep (sep : Char) (l : List Char) (h : sep ∉ l) :
    pySplit sep l = [l] := by
  induction l with
  | nil => simp [pySplit]
  | cons c cs ih =>
    have hc : ¬ (c = sep) := fun he => h (he ▸ List.mem_cons_self c cs)
    have hcs : sep ∉ cs := fun hm => h (List.mem_cons_of_mem c hm)
    simp only [pySplit, if_neg hc, ih hcs]

theorem pySplit_append (sep : Char) (a b : List Char) (h : sep ∉ a) :
    pySplit sep (a ++ sep :: b) = a :: pySplit sep b := by
  induction a with
  | nil => simp [pySplit]
  | cons c cs ih =>
    have hc : ¬ (c = sep) := fun he => h (he ▸ List.mem_cons_self c cs)
    have hcs : sep ∉ cs := fun hm => h (List.mem_cons_of_mem c hm)
    simp only [List.cons_append, pySplit, if_neg hc, List.append_eq]
    rw [ih hcs]

theorem dropWhile_eq_self_of_forall {p : Char → Bool} (l : List Char)
    (h : ∀ x ∈ l, p x = false) : l.dropWhile p = l := by
  cases l with
  | nil => rfl
  | cons c cs =>
    rw [List.dropWhile_cons, h c (List.mem_cons_self c cs)]
    simp

theorem mem_pyStrip (l : List Char) : ∀ x ∈ pyStrip l, x ∈ l := by
  intro x hx
  have h1 : ∀ y ∈ pyRstrip (pyLstrip l), y ∈ pyLstrip l := by
    intro y hy
    unfold pyRstrip at hy
    rw [List.mem_reverse] at hy
    have := (List.dropWhile_sublist pyWs (l := (pyLstrip l).reverse)).mem hy
    rwa [List.mem_reverse] at this
  have h2 : ∀ y ∈ pyLstrip l, y ∈ l := fun y hy =>
    (List.dropWhile_sublist pyWs (l := l)).mem hy
  exact h2 x (h1 x hx)

theorem pyStrip_eq_self (l : List Char) (h : ∀ x ∈ l, pyWs x = false) :
    pyStrip l = l := by
  unfold pyStrip pyRstrip pyLstrip
  rw [dropWhile_eq_self_of_forall l h]
  rw [dropWhile_eq_self_of_forall l.reverse (fun x hx => h x (List.mem_reverse.mp hx))]
  exact List.reverse_reverse l

theorem isDigit_char_facts (c : Char) (h : c.isDigit = true) :
    pyWs c = false ∧ ¬ (c = '+') ∧ ¬ (c = '-') ∧ ¬ (c = '.') ∧ ¬ (c = 'v') := by
  refine ⟨?_, ?_, ?_, ?_, ?_⟩
  · unfold pyWs
    simp only [Bool.or_eq_false_iff, decide_eq_false_iff_not]
    refine ⟨⟨⟨⟨⟨?_, ?_⟩, ?_⟩, ?_⟩, ?_⟩, ?_⟩ <;>
      · intro he
        rw [he] at h
        exact absurd h (by decide)
  all_goals
    intro he
    rw [he] at h
    exact absurd h (by decide)

theorem digChar_isDigit (d : Nat) (h : d < 10) : (digChar d).isDigit = true := by
  interval_cases d <;> decide

theorem digChar_val (d : Nat) (h : d < 10) : (digChar d).toNat - 48 = d := by
  interval_cases d <;> decide

theorem digitsToNat_append_digit (xs : List Char) (c : Char) :
    digitsToNat (xs ++ [c]) = 10 * digitsToNat xs + (c.toNat - 48) := by
  unfold digitsToNat
  rw [List.foldl_append]
  rfl

theorem natReprAux_spec (fuel : Nat) :
    ∀ n, 0 < n → n ≤ fuel →
      (∀ c ∈ natReprAux fuel n, c.isDigit = true) ∧ natReprAux fuel n ≠ [] ∧
        digitsToNat (natReprAux fuel n) = n := by
  induction fuel with
  | zero => intro n h1 h2; omega
  | succ fuel ih =>
    intro n h1 h2
    rcases n with _ | m
    · omega
    rw [show natReprAux (fuel + 1) (m + 1) =
        natReprAux fuel ((m + 1) / 10) ++ [digChar ((m + 1) % 10)] from rfl]
    have hmod : (m + 1) % 10 < 10 := Nat.mod_lt _ (by omega)
    by_cases hq : (m + 1) / 10 = 0
    · have hlt : m + 1 < 10 := by
        have := Nat.div_add_mod (m + 1) 10
        omega
      have hmv : (m + 1) % 10 = m + 1 := Nat.mod_eq_of_lt hlt
      rw [hq, show natReprAux fuel 0 = [] from by cases fuel <;> rfl]
      refine ⟨?_, by simp, ?_⟩
      · intro c hc
        simp only [List.nil_append, List.mem_singleton] at hc
        rw [hc]
        exact digChar_isDigit _ hmod
      · simp only [List.nil_append]
        rw [show digitsToNat [digChar ((m + 1) % 10)] =
            10 * digitsToNat [] + ((digChar ((m + 1) % 10)).toNat - 48) from
          digitsToNat_append_digit [] _]
        rw [digChar_val _ hmod]
        simp [digitsToNat, hmv]
    · have hqlt : (m + 1) / 10 < m + 1 := Nat.div_lt_self (by omega) (by omega)
      have hqle : (m + 1) / 10 ≤ fuel := by omega
      obtain ⟨hd, hne, hval⟩ := ih ((m + 1) / 10) (Nat.pos_of_ne_zero hq) hqle
      refine ⟨?_, by simp, ?_⟩
      · intro c hc
        rcases List.mem_append.mp hc with h | h
        · exact hd c h
        · rw [List.mem_singleton.mp h]
          exact digChar_isDigit _ hmod
      · rw [digitsToNat_append_digit, hval, digChar_val _ hmod]
        exact Nat.div_add_mod (m + 1) 10

theorem natRepr_spec (n : Nat) :
    (∀ c ∈ natRepr n, c.isDigit = true) ∧ natRepr n ≠ [] ∧
      digitsToNat (natRepr n) = n := by
  by_cases h : n = 0
  · subst h
    refine ⟨?_, by decide, by decide⟩
    intro c hc
    have hc0 : c = '0' := by simpa [natRepr] using hc
    rw [hc0]; decide
  · rw [show natRepr n = natReprAux n n from by rw [natRepr, if_neg h]]
    exact natReprAux_spec n n (Nat.pos_of_ne_zero h) (Nat.le_refl n)

theorem pyInt_cons_strip (l : List Char) (c : Char) (rest : List Char)
    (h : pyStrip l = c :: rest) :
    pyInt l =
      if c = '+' then (natFromDigits rest).map Int.ofNat
      else if c = '-' then (natFromDigits rest).map (fun n => -Int.ofNat n)
      else (natFromDigits (c :: rest)).map Int.ofNat := by
  unfold pyInt
  rw [h]

theorem pyInt_all_digits (l : List Char) (hne : l ≠ [])
    (hd : ∀ c ∈ l, c.isDigit = true) :
    pyInt l = some ((digitsToNat l : Nat) : Int) := by
  have hstrip : pyStrip l = l :=
    pyStrip_eq_self l (fun x hx => (isDigit_char_facts x (hd x hx)).1)
  cases l with
  | nil => exact absurd rfl hne
  | cons c cs =>
    rw [pyInt_cons_strip (c :: cs) c cs hstrip]
    have hc := isDigit_char_facts c (hd c (List.mem_cons_self c cs))
    rw [if_neg hc.2.1, if_neg hc.2.2.1]
    unfold natFromDigits
    rw [if_neg (by simp), if_pos (by rw [List.all_eq_true]; exact hd)]
    rfl

theorem pyInt_natRepr (n : Nat) : pyInt (natRepr n) = some ((n : Nat) : Int) := by
  obtain ⟨hd, hne, hval⟩ := natRepr_spec n
  rw [pyInt_all_digits (natRepr n) hne hd, hval]

theorem pyInt_nonneg (l : List Char) (i : Int) (h : pyInt l = some i)
    (hnd : ('-') ∉ l) : 0 ≤ i := by
  rcases hs : pyStrip l with _ | ⟨c, rest⟩
  · unfold pyInt at h
    rw [hs] at h
    exact absurd h (by simp)
  · rw [pyInt_cons_strip l c rest hs] at h
    have hcmem : c ∈ l := mem_pyStrip l c (hs ▸ List.mem_cons_self c rest)
    have hcne : ¬ (c = '-') := fun he => hnd (he ▸ hcmem)
    by_cases hp : c = '+'
    · rw [if_pos hp] at h
      rcases Option.map_eq_some'.mp h with ⟨n, _, hn⟩
      rw [← hn]
      exact Int.natCast_nonneg n
    · rw [if_neg hp, if_neg hcne] at h
      rcases Option.map_eq_some'.mp h with ⟨n, _, hn⟩
      rw [← hn]
      exact Int.natCast_nonneg n

theorem intRepr_nonneg (i : Int) (h : 0 ≤ i) : intRepr i = natRepr i.toNat := by
  unfold intRepr
  rw [if_neg (by omega)]

theorem parse_eq_firstdash (s : List Char) :
    parse_version s = parse_version_firstdash s := by
  simp only [parse_version, parse_version_firstdash, pySplit_headD, pySplit_getD_one,
    pySplit_length_gt_one]

theorem dropWhile_eq_self_of_head (p : Char → Bool) (c : Char) (cs : List Char)
    (h : p c = false) : (c :: cs).dropWhile p = c :: cs := by
  rw [List.dropWhile_cons, h]
  simp

theorem parse_version_canonical_core (c0 : Char) (A' B C : List Char)
    (hB : B ≠ []) (hC : C ≠ [])
    (hdA : ∀ x ∈ c0 :: A', x.isDigit = true) (hdB : ∀ x ∈ B, x.isDigit = true)
    (hdC : ∀ x ∈ C, x.isDigit = true) :
    parse_version ((c0 :: A') ++ ('.' :: (B ++ ('.' :: C)))) =
      some (Int.ofNat (digitsToNat (c0 :: A')), Int.ofNat (digitsToNat B),
        Int.ofNat (digitsToNat C), 0) := by
  have hws : ∀ x ∈ (c0 :: A') ++ ('.' :: (B ++ ('.' :: C))), pyWs x = false := by
    intro x hx
    rcases List.mem_append.mp hx with h | h
    · exact (isDigit_char_facts x (hdA x h)).1
    · rcases List.mem_cons.mp h with h | h
      · rw [h]; decide
      · rcases List.mem_append.mp h with h | h
        · exact (isDigit_char_facts x (hdB x h)).1
        · rcases List.mem_cons.mp h with h | h
          · rw [h]; decide
          · exact (isDigit_char_facts x (hdC x h)).1
  have hstrip := pyStrip_eq_self _ hws
  have hnv := (isDigit_char_facts c0 (hdA c0 (List.mem_cons_self c0 A'))).2.2.2.2
  have hdrop : (((c0 :: A') ++ ('.' :: (B ++ ('.' :: C)))).dropWhile
      (fun c => c = 'v')) = (c0 :: A') ++ ('.' :: (B ++ ('.' :: C))) := by
    rw [List.cons_append]
    exact dropWhile_eq_self_of_head _ c0 _ (by simp [hnv])
  have hnd : ('-') ∉ (c0 :: A') ++ ('.' :: (B ++ ('.' :: C))) := by
    intro hm
    rcases List.mem_append.mp hm with h | h
    · exact (isDigit_char_facts _ (hdA _ h)).2.2.1 rfl
    · rcases List.mem_cons.mp h with h | h
      · exact absurd h (by decide)
      · rcases List.mem_append.mp h with h | h
        · exact (isDigit_char_facts _ (hdB _ h)).2.2.1 rfl
        · rcases List.mem_cons.mp h with h | h
          · exact absurd h (by decide)
          · exact (isDigit_char_facts _ (hdC _ h)).2.2.1 rfl
  have hsplit1 := pySplit_no_sep '-' _ hnd
  have hdotA : ('.') ∉ c0 :: A' := fun hm => (isDigit_char_facts _ (hdA _ hm)).2.2.2.1 rfl
  have hdotB : ('.') ∉ B := fun hm => (isDigit_char_facts _ (hdB _ hm)).2.2.2.1 rfl
  have hdotC : ('.') ∉ C := fun hm => (isDigit_char_facts _ (hdC _ hm)).2.2.2.1 rfl
  have hsplit2 : pySplit '.' ((c0 :: A') ++ ('.' :: (B ++ ('.' :: C)))) =
      [c0 :: A', B, C] := by
    rw [pySplit_append '.' (c0 :: A') _ hdotA, pySplit_append '.' B _ hdotB,
      pySplit_no_sep '.' C hdotC]
  simp only [parse_version, hstrip, hdrop, hsplit1, List.headD_cons, hsplit2,
    List.length_cons, List.length_nil, List.getD_cons_zero, List.getD_cons_succ,
    pyInt_all_digits (c0 :: A') (by simp) hdA, pyInt_all_digits B hB hdB,
    pyInt_all_digits C hC hdC]
  norm_num

theorem parse_version_canonical_rel_core (c0 : Char) (A' B C R : List Char)
    (hB : B ≠ []) (hC : C ≠ []) (hR : R ≠ [])
    (hdA : ∀ x ∈ c0 :: A', x.isDigit = true) (hdB : ∀ x ∈ B, x.isDigit = true)
    (hdC : ∀ x ∈ C, x.isDigit = true) (hdR : ∀ x ∈ R, x.isDigit = true) :
    parse_version (((c0 :: A') ++ ('.' :: (B ++ ('.' :: C)))) ++ ('-' :: R)) =
      some (Int.ofNat (digitsToNat (c0 :: A')), Int.ofNat (digitsToNat B),
        Int.ofNat (digitsToNat C), Int.ofNat (digitsToNat R)) := by
  have hws : ∀ x ∈ ((c0 :: A') ++ ('.' :: (B ++ ('.' :: C)))) ++ ('-' :: R),
      pyWs x = false := by
    intro x hx
    rcases List.mem_append.mp hx with h | h
    · rcases List.mem_append.mp h with h | h
      · exact (isDigit_char_facts x (hdA x h)).1
      · rcases List.mem_cons.mp h with h | h
        · rw [h]; decide
        · rcases List.mem_append.mp h with h | h
          · exact (isDigit_char_facts x (hdB x h)).1
          · rcases List.mem_cons.mp h with h | h
            · rw [h]; decide
            · exact (isDigit_char_facts x (hdC x h)).1
    · rcases List.mem_cons.mp h with h | h
      · rw [h]; decide
      · exact (isDigit_char_facts x (hdR x h)).1
  have hstrip := pyStrip_eq_self _ hws
  have hnv := (isDigit_char_facts c0 (hdA c0 (List.mem_cons_self c0 A'))).2.2.2.2
  have hdrop : ((((c0 :: A') ++ ('.' :: (B ++ ('.' :: C)))) ++ ('-' :: R)).dropWhile
      (fun c => c = 'v')) = ((c0 :: A') ++ ('.' :: (B ++ ('.' :: C)))) ++ ('-' :: R) := by
    rw [List.cons_append, List.cons_append]
    exact dropWhile_eq_self_of_head _ c0 _ (by simp [hnv])
  have hndmain : ('-') ∉ (c0 :: A') ++ ('.' :: (B ++ ('.' :: C))) := by
    intro hm
    rcases List.mem_append.mp hm with h | h
    · exact (isDigit_char_facts _ (hdA _ h)).2.2.1 rfl
    · rcases List.mem_cons.mp h with h | h
      · exact absurd h (by decide)
      · rcases List.mem_append.mp h with h | h
        · exact (isDigit_char_facts _ (hdB _ h)).2.2.1 rfl
        · rcases List.mem_cons.mp h with h | h
          · exact absurd h (by decide)
          · exact (isDigit_char_facts _ (hdC _ h)).2.2.1 rfl
  have hsplit1 : pySplit '-' (((c0 :: A') ++ ('.' :: (B ++ ('.' :: C)))) ++ ('-' :: R)) =
      [(c0 :: A') ++ ('.' :: (B ++ ('.' :: C))), R] := by
    rw [pySplit_append '-' _ R hndmain]
    rw [pySplit_no_sep '-' R (fun hm => (isDigit_char_facts _ (hdR _ hm)).2.2.1 rfl)]
  have hdotA : ('.') ∉ c0 :: A' := fun hm => (isDigit_char_facts _ (hdA _ hm)).2.2.2.1 rfl
  have hdotB : ('.') ∉ B := fun hm => (isDigit_char_facts _ (hdB _ hm)).2.2.2.1 rfl
  have hdotC : ('.') ∉ C := fun hm => (isDigit_char_facts _ (hdC _ hm)).2.2.2.1 rfl
  have hsplit2 : pySplit '.' ((c0 :: A') ++ ('.' :: (B ++ ('.' :: C)))) =
      [c0 :: A', B, C] := by
    rw [pySplit_append '.' (c0 :: A') _ hdotA, pySplit_append '.' B _ hdotB,
      pySplit_no_sep '.' C hdotC]
  simp only [parse_version, hstrip, hdrop, hsplit1, List.headD_cons, hsplit2,
    List.length_cons, List.length_nil, List.getD_cons_zero, List.getD_cons_succ,
    pyInt_all_digits (c0 :: A') (by simp) hdA, pyInt_all_digits B hB hdB,
    pyInt_all_digits C hC hdC, pyInt_all_digits R hR hdR]
  norm_num

theorem headD_mem_of_ne_nil (L : List (List Char)) (h : L ≠ []) : L.headD [] ∈ L := by
  cases L with
  | nil => exact absurd rfl h
  | cons x xs => exact List.mem_cons_self x xs

theorem getD_mem_of_lt (L : List (List Char)) (n : Nat) (h : n < L.length) :
    L.getD n [] ∈ L := by
  induction L generalizing n with
  | nil => simp at h
  | cons x xs ih =>
    cases n with
    | zero => exact List.mem_cons_self x xs
    | succ m =>
      rw [List.getD_cons_succ]
      exact List.mem_cons_of_mem x (ih m (by simpa using h))

theorem parse_version_nonneg (s : List Char) (a b c r : Int)
    (h : parse_version s = some (a, b, c, r)) :
    0 ≤ a ∧ 0 ≤ b ∧ 0 ≤ c ∧ 0 ≤ r := by
  have hmain : ('-') ∉
      (pySplit '-' ((pyStrip s).dropWhile (fun c => c = 'v'))).headD [] :=
    mem_pySplit_not_mem '-' _ _
      (headD_mem_of_ne_nil _ (pySplit_ne_nil '-' _))
  have hcomp : ∀ n i, (if n < (pySplit '.'
      ((pySplit '-' ((pyStrip s).dropWhile (fun c => c = 'v'))).headD [])).length then
      pyInt ((pySplit '.'
        ((pySplit '-' ((pyStrip s).dropWhile (fun c => c = 'v'))).headD [])).getD n [])
      else some 0) = some i → 0 ≤ i := by
    intro n i hi
    split at hi
    · refine pyInt_nonneg _ i hi ?_
      intro hm
      exact hmain (mem_of_mem_pySplit '.' _ _ (getD_mem_of_lt _ n (by assumption)) '-' hm)
    · simp at hi
      omega
  have hrelease : ∀ i, (if 1 <
      (pySplit '-' ((pyStrip s).dropWhile (fun c => c = 'v'))).length then
      pyInt ((pySplit '-' ((pyStrip s).dropWhile (fun c => c = 'v'))).getD 1 [])
      else some 0) = some i → 0 ≤ i := by
    intro i hi
    split at hi
    · refine pyInt_nonneg _ i hi ?_
      intro hm
      exact mem_pySplit_not_mem '-' _ _ (getD_mem_of_lt _ 1 (by assumption)) hm
    · simp at hi
      omega
  simp only [parse_version] at h
  rcases hM : (if 0 < (pySplit '.'
      ((pySplit '-' ((pyStrip s).dropWhile (fun c => c = 'v'))).headD [])).length then
      pyInt ((pySplit '.'
        ((pySplit '-' ((pyStrip s).dropWhile (fun c => c = 'v'))).headD [])).getD 0 [])
      else some 0) with _ | maj <;> rw [hM] at h
  · exact absurd h (by simp)
  rcases hN : (if 1 < (pySplit '.'
      ((pySplit '-' ((pyStrip s).dropWhile (fun c => c = 'v'))).headD [])).length then
      pyInt ((pySplit '.'
        ((pySplit '-' ((pyStrip s).dropWhile (fun c => c = 'v'))).headD [])).getD 1 [])
      else some 0) with _ | mnr <;> rw [hN] at h
  · exact absurd h (by simp)
  rcases hP : (if 2 < (pySplit '.'
      ((pySplit '-' ((pyStrip s).dropWhile (fun c => c = 'v'))).headD [])).length then
      pyInt ((pySplit '.'
        ((pySplit '-' ((pyStrip s).dropWhile (fun c => c = 'v'))).headD [])).getD 2 [])
      else some 0) with _ | pat <;> rw [hP] at h
  · exact absurd h (by simp)
  rcases hR : (if 1 <
      (pySplit '-' ((pyStrip s).dropWhile (fun c => c = 'v'))).length then
      pyInt ((pySplit '-' ((pyStrip s).dropWhile (fun c => c = 'v'))).getD 1 [])
      else some 0) with _ | rel <;> rw [hR] at h
  · exact absurd h (by simp)
  simp only [Option.some.injEq, Prod.mk.injEq] at h
  obtain ⟨ha, hb, hc, hr⟩ := h
  subst ha; subst hb; subst hc; subst hr
  exact ⟨hcomp 0 maj hM, hcomp 1 mnr hN, hcomp 2 pat hP, hrelease rel hR⟩

theorem tupleLtPy_iff_lexLt4 (a b : Int × Int × Int × Int) :
    tupleLtPy a b = true ↔ lexLt4 a b := by
  simp [tupleLtPy, lexLt4, Bool.or_eq_true, Bool.and_eq_true, decide_eq_true_eq]

theorem tupleLtPy_irrefl (t : Int × Int × Int × Int) : tupleLtPy t t = false := by
  simp [tupleLtPy]

namespace UpdateDaemon

theorem is_running_fst_true (pidFile : Option (List Char)) (alive : Int → Bool)
    (h : (is_running pidFile alive).1 = true) : (is_running pidFile alive).2 = pidFile := by
  simp only [is_running] at h ⊢
  split at h
  · simp at h
  · split at h
    · split
      · rfl
      · simp_all
    · simp at h

theorem run_tick_sleep_count (interval : Int) (lastCheck : Option Int) (t : TickInput) :
    List.count RunEff.sleepTick (run_tick interval lastCheck t).2 = 1 := by
  unfold run_tick
  split
  · rcases t.result with e | b
    · simp [List.count_cons]
    · rcases b <;> simp [List.count_cons]
  · simp

theorem run_loop_ticks_all (interval : Int) (ts : List TickInput) :
    ∀ lastCheck, (∀ t ∈ ts, t.signal = false) →
      List.count RunEff.sleepTick (run_loop interval lastCheck ts).2 = ts.length := by
  induction ts with
  | nil => intro lastCheck _; simp [run_loop]
  | cons t ts ih =>
    intro lastCheck hsig
    have ht : t.signal = false := hsig t (List.mem_cons_self t ts)
    unfold run_loop
    rw [ht]
    simp only [Bool.false_eq_true, if_false, List.count_append, List.length_cons]
    rw [run_tick_sleep_count,
      ih (run_tick interval lastCheck t).1 (fun x hx => hsig x (List.mem_cons_of_mem t hx))]
    omega

theorem stopPoll_completed_iff (pid : Int) (alive : Nat → Bool) :
    ∀ fuel t, (stopPoll pid alive t fuel).2 = true ↔ ∀ i, i < fuel → alive (t + i) = true := by
  intro fuel
  induction fuel with
  | zero => intro t; simp [stopPoll]
  | succ fuel ih =>
    intro t
    unfold stopPoll
    by_cases h : alive t
    · rw [if_pos h]
      simp only
      rw [ih (t + 1)]
      constructor
      · intro hall i hi
        rcases i with _ | j
        · simpa using h
        · have := hall j (by omega)
          simpa [Nat.add_assoc, Nat.add_comm 1 j] using this
      · intro hall i hi
        have := hall (i + 1) (by omega)
        simpa [Nat.add_assoc, Nat.add_comm 1 i] using this
    · rw [if_neg h]
      simp only [List.count_nil]
      constructor
      · intro hf; simp at hf
      · intro hall
        have := hall 0 (by omega)
        simp at this
        exact absurd this h

theorem stopPoll_succ (pid : Int) (alive : Nat → Bool) (t fuel : Nat) :
    stopPoll pid alive t (fuel + 1) =
      if alive t then
        (StopEff.checkAlive pid :: StopEff.sleepPoll :: (stopPoll pid alive (t + 1) fuel).1,
         (stopPoll pid alive (t + 1) fuel).2)
      else ([StopEff.checkAlive pid], false) := rfl

theorem stopPoll_succ_alive (pid : Int) (alive : Nat → Bool) (t fuel : Nat)
    (h : alive t = true) :
    stopPoll pid alive t (fuel + 1) =
      (StopEff.checkAlive pid :: StopEff.sleepPoll :: (stopPoll pid alive (t + 1) fuel).1,
       (stopPoll pid alive (t + 1) fuel).2) := by
  rw [stopPoll_succ, if_pos h]

theorem stopPoll_succ_dead (pid : Int) (alive : Nat → Bool) (t fuel : Nat)
    (h : alive t = false) :
    stopPoll pid alive t (fuel + 1) = ([StopEff.checkAlive pid], false) := by
  rw [stopPoll_succ, if_neg (by simp [h])]

theorem stopPoll_sleep_le (pid : Int) (alive : Nat → Bool) :
    ∀ fuel t, List.count StopEff.sleepPoll (stopPoll pid alive t fuel).1 ≤ fuel := by
  intro fuel
  induction fuel with
  | zero => intro t; simp [stopPoll]
  | succ fuel ih =>
    intro t
    by_cases h : alive t
    · rw [stopPoll_succ_alive pid alive t fuel h]
      have := ih (t + 1)
      simp [List.count_cons]
      omega
    · rw [stopPoll_succ_dead pid alive t fuel (by simpa using h)]
      simp [List.count_cons]

theorem stopPoll_sleep_of_completed (pid : Int) (alive : Nat → Bool) :
    ∀ fuel t, (stopPoll pid alive t fuel).2 = true →
      List.count StopEff.sleepPoll (stopPoll pid alive t fuel).1 = fuel := by
  intro fuel
  induction fuel with
  | zero => intro t _; simp [stopPoll]
  | succ fuel ih =>
    intro t hc
    unfold stopPoll at hc ⊢
    by_cases h : alive t
    · rw [if_pos h] at hc ⊢
      simp only at hc
      simp only [List.count_cons]
      rw [ih (t + 1) hc]
      simp
    · rw [if_neg h] at hc
      simp at hc

theorem stopPoll_no_sigkill (pid : Int) (alive : Nat → Bool) :
    ∀ fuel t p, StopEff.sigKill p ∉ (stopPoll pid alive t fuel).1 := by
  intro fuel
  induction fuel with
  | zero => intro t p; simp [stopPoll]
  | succ fuel ih =>
    intro t p
    unfold stopPoll
    by_cases h : alive t
    · rw [if_pos h]
      simp only [List.mem_cons]
      intro hm
      rcases hm with h1 | h1 | h1
      · exact StopEff.noConfusion h1
      · exact StopEff.noConfusion h1
      · exact ih (t + 1) p h1
    · rw [if_neg h]
      intro hm
      rcases List.mem_singleton.mp hm with h1
      exact StopEff.noConfusion h1

end UpdateDaemon

namespace UpdateDaemon

theorem tryMethods_cons (launch : Method → LaunchOutcome) (scanOk : Method → Bool)
    (m : Method) (ms : List Method) :
    tryMethods launch scanOk (m :: ms) =
      match launch m with
      | LaunchOutcome.timedOut =>
        ((tryMethods launch scanOk ms).1,
         RestartEff.tryMethod m :: RestartEff.logTimeout m :: (tryMethods launch scanOk ms).2)
      | LaunchOutcome.raisedError =>
        ((tryMethods launch scanOk ms).1,
         RestartEff.tryMethod m :: RestartEff.logMethodError m :: (tryMethods launch scanOk ms).2)
      | LaunchOutcome.completed =>
        if scanOk m then
          (true, [RestartEff.tryMethod m, RestartEff.sleepAfterLaunch m,
                  RestartEff.scanForApp m, RestartEff.logSuccess m])
        else
          ((tryMethods launch scanOk ms).1,
           RestartEff.tryMethod m :: RestartEff.sleepAfterLaunch m ::
             RestartEff.scanForApp m :: RestartEff.logMethodFailed m ::
               (tryMethods launch scanOk ms).2) := rfl

theorem tryMethods_trace_ne_nil (launch : Method → LaunchOutcome) (scanOk : Method → Bool) :
    ∀ ms, (tryMethods launch scanOk ms).2 ≠ [] := by
  intro ms
  cases ms with
  | nil => simp [tryMethods]
  | cons m ms =>
    rw [tryMethods_cons]
    rcases launch m <;> simp only
    · split <;> simp
    · simp
    · simp

theorem getLast_cons_of_ne_nil {α : Type} (a : α) (l : List α) (h : l ≠ []) :
    (a :: l).getLast? = l.getLast? := by
  cases l with
  | nil => exact absurd rfl h
  | cons b bs => rfl

theorem getLast_append_ne {α : Type} (l1 l2 : List α) (h : l2 ≠ []) :
    (l1 ++ l2).getLast? = l2.getLast? := by
  induction l1 with
  | nil => rfl
  | cons a l ih =>
    rw [List.cons_append, getLast_cons_of_ne_nil a _ (by
      intro he
      rcases List.append_eq_nil.mp he with ⟨h1, h2⟩
      exact h h2)]
    exact ih

theorem tryMethods_tried_take (launch : Method → LaunchOutcome) (scanOk : Method → Bool) :
    ∀ ms, ∃ k, methodsTried (tryMethods launch scanOk ms).2 = ms.take k := by
  intro ms
  induction ms with
  | nil => exact ⟨0, by simp [tryMethods, methodsTried]⟩
  | cons m ms ih =>
    obtain ⟨k, hk⟩ := ih
    rw [tryMethods_cons]
    rcases launch m <;> simp only
    · split
      · exact ⟨1, by simp [methodsTried]⟩
      · refine ⟨k + 1, ?_⟩
        simp only [methodsTried, List.filterMap_cons, List.take_succ_cons]
        simpa [methodsTried] using hk
    · refine ⟨k + 1, ?_⟩
      simp only [methodsTried, List.filterMap_cons, List.take_succ_cons]
      simpa [methodsTried] using hk
    · refine ⟨k + 1, ?_⟩
      simp only [methodsTried, List.filterMap_cons, List.take_succ_cons]
      simpa [methodsTried] using hk

theorem tryMethods_fst_iff (launch : Method → LaunchOutcome) (scanOk : Method → Bool) :
    ∀ ms, (tryMethods launch scanOk ms).1 = true ↔
      ∃ m ∈ ms, launch m = LaunchOutcome.completed ∧ scanOk m = true := by
  intro ms
  induction ms with
  | nil => simp [tryMethods]
  | cons m ms ih =>
    rw [tryMethods_cons]
    rcases hl : launch m <;> simp only
    · by_cases hs : scanOk m
      · rw [if_pos hs]
        simp [hl, hs]
      · rw [if_neg hs]
        simp only [ih, List.mem_cons]
        constructor
        · rintro ⟨x, hx, hc, hsx⟩
          exact ⟨x, Or.inr hx, hc, hsx⟩
        · rintro ⟨x, hx, hc, hsx⟩
          rcases hx with rfl | hx
          · exact absurd hsx (by simpa using hs)
          · exact ⟨x, hx, hc, hsx⟩
    · simp only [ih, List.mem_cons]
      constructor
      · rintro ⟨x, hx, hc, hsx⟩
        exact ⟨x, Or.inr hx, hc, hsx⟩
      · rintro ⟨x, hx, hc, hsx⟩
        rcases hx with rfl | hx
        · rw [hl] at hc
          exact absurd hc (by simp)
        · exact ⟨x, hx, hc, hsx⟩
    · simp only [ih, List.mem_cons]
      constructor
      · rintro ⟨x, hx, hc, hsx⟩
        exact ⟨x, Or.inr hx, hc, hsx⟩
      · rintro ⟨x, hx, hc, hsx⟩
        rcases hx with rfl | hx
        · rw [hl] at hc
          exact absurd hc (by simp)
        · exact ⟨x, hx, hc, hsx⟩

end UpdateDaemon

namespace UpdateDaemon

theorem tryMethods_cons_timeout (launch : Method → LaunchOutcome) (scanOk : Method → Bool)
    (m : Method) (ms : List Method) (h : launch m = LaunchOutcome.timedOut) :
    tryMethods launch scanOk (m :: ms) =
      ((tryMethods launch scanOk ms).1,
       RestartEff.tryMethod m :: RestartEff.logTimeout m ::
         (tryMethods launch scanOk ms).2) := by
  rw [tryMethods_cons, h]

theorem tryMethods_cons_error (launch : Method → LaunchOutcome) (scanOk : Method → Bool)
    (m : Method) (ms : List Method) (h : launch m = LaunchOutcome.raisedError) :
    tryMethods launch scanOk (m :: ms) =
      ((tryMethods launch scanOk ms).1,
       RestartEff.tryMethod m :: RestartEff.logMethodError m ::
         (tryMethods launch scanOk ms).2) := by
  rw [tryMethods_cons, h]

theorem tryMethods_cons_win (launch : Method → LaunchOutcome) (scanOk : Method → Bool)
    (m : Method) (ms : List Method) (h : launch m = LaunchOutcome.completed)
    (hs : scanOk m = true) :
    tryMethods launch scanOk (m :: ms) =
      (true, [RestartEff.tryMethod m, RestartEff.sleepAfterLaunch m,
              RestartEff.scanForApp m, RestartEff.logSuccess m]) := by
  rw [tryMethods_cons, h]
  simp only [if_pos hs]

theorem tryMethods_cons_noscan (launch : Method → LaunchOutcome) (scanOk : Method → Bool)
    (m : Method) (ms : List Method) (h : launch m = LaunchOutcome.completed)
    (hs : scanOk m = false) :
    tryMethods launch scanOk (m :: ms) =
      ((tryMethods launch scanOk ms).1,
       RestartEff.tryMethod m :: RestartEff.sleepAfterLaunch m ::
         RestartEff.scanForApp m :: RestartEff.logMethodFailed m ::
           (tryMethods launch scanOk ms).2) := by
  rw [tryMethods_cons, h]
  simp only [hs]
  simp

theorem tryMethods_find_some (launch : Method → LaunchOutcome) (scanOk : Method → Bool) :
    ∀ ms m, ms.find? (fun x => decide (launch x = LaunchOutcome.completed) && scanOk x) =
        some m →
      (tryMethods launch scanOk ms).1 = true ∧
        (tryMethods launch scanOk ms).2.getLast? = some (RestartEff.logSuccess m) ∧
        RestartEff.logAllFailed ∉ (tryMethods launch scanOk ms).2 := by
  intro ms
  induction ms with
  | nil => intro m hf; simp at hf
  | cons m0 ms ih =>
    intro m hf
    rw [List.find?_cons] at hf
    by_cases hp : (decide (launch m0 = LaunchOutcome.completed) && scanOk m0) = true
    · rw [hp] at hf
      have hm : m0 = m := by simpa using hf
      subst hm
      have hcs : launch m0 = LaunchOutcome.completed ∧ scanOk m0 = true := by simpa using hp
      rw [tryMethods_cons_win launch scanOk m0 ms hcs.1 hcs.2]
      exact ⟨rfl, by simp, by simp⟩
    · have hpf : (decide (launch m0 = LaunchOutcome.completed) && scanOk m0) = false := by
        simpa using hp
      rw [hpf] at hf
      have hf2 : List.find?
          (fun x => decide (launch x = LaunchOutcome.completed) && scanOk x) ms = some m := by
        simpa using hf
      obtain ⟨h1, h2, h3⟩ := ih m hf2
      rcases hl : launch m0 with _ | _ | _
      · by_cases hs : scanOk m0
        · exact absurd (by simp [hl, hs]) hp
        · rw [tryMethods_cons_noscan launch scanOk m0 ms hl (by simpa using hs)]
          refine ⟨h1, ?_, ?_⟩
          · rw [getLast_cons_of_ne_nil _ _ (by simp),
              getLast_cons_of_ne_nil _ _ (by simp),
              getLast_cons_of_ne_nil _ _ (by simp),
              getLast_cons_of_ne_nil _ _ (tryMethods_trace_ne_nil launch scanOk ms)]
            exact h2
          · simp only [List.mem_cons, not_or]
            exact ⟨by simp, by simp, by simp, by simp, h3⟩
      · rw [tryMethods_cons_timeout launch scanOk m0 ms hl]
        refine ⟨h1, ?_, ?_⟩
        · rw [getLast_cons_of_ne_nil _ _ (by simp),
            getLast_cons_of_ne_nil _ _ (tryMethods_trace_ne_nil launch scanOk ms)]
          exact h2
        · simp only [List.mem_cons, not_or]
          exact ⟨by simp, by simp, h3⟩
      · rw [tryMethods_cons_error launch scanOk m0 ms hl]
        refine ⟨h1, ?_, ?_⟩
        · rw [getLast_cons_of_ne_nil _ _ (by simp),
            getLast_cons_of_ne_nil _ _ (tryMethods_trace_ne_nil launch scanOk ms)]
          exact h2
        · simp only [List.mem_cons, not_or]
          exact ⟨by simp, by simp, h3⟩

theorem tryMethods_find_none (launch : Method → LaunchOutcome) (scanOk : Method → Bool) :
    ∀ ms, ms.find? (fun x => decide (launch x = LaunchOutcome.completed) && scanOk x) =
        none →
      (tryMethods launch scanOk ms).1 = false ∧
        (tryMethods launch scanOk ms).2.getLast? = some RestartEff.logAllFailed ∧
        methodsTried (tryMethods launch scanOk ms).2 = ms := by
  intro ms
  induction ms with
  | nil => intro _; refine ⟨rfl, rfl, rfl⟩
  | cons m0 ms ih =>
    intro hf
    rw [List.find?_cons] at hf
    by_cases hp : (decide (launch m0 = LaunchOutcome.completed) && scanOk m0) = true
    · rw [hp] at hf
      exact absurd hf (by simp)
    · have hpf : (decide (launch m0 = LaunchOutcome.completed) && scanOk m0) = false := by
        simpa using hp
      rw [hpf] at hf
      have hf2 : List.find?
          (fun x => decide (launch x = LaunchOutcome.completed) && scanOk x) ms = none := by
        simpa using hf
      obtain ⟨h1, h2, h3⟩ := ih hf2
      rcases hl : launch m0 with _ | _ | _
      · by_cases hs : scanOk m0
        · exact absurd (by simp [hl, hs]) hp
        · rw [tryMethods_cons_noscan launch scanOk m0 ms hl (by simpa using hs)]
          refine ⟨h1, ?_, ?_⟩
          · rw [getLast_cons_of_ne_nil _ _ (by simp),
              getLast_cons_of_ne_nil _ _ (by simp),
              getLast_cons_of_ne_nil _ _ (by simp),
              getLast_cons_of_ne_nil _ _ (tryMethods_trace_ne_nil launch scanOk ms)]
            exact h2
          · simp only [methodsTried, List.filterMap_cons] at h3 ⊢
            simp [h3]
      · rw [tryMethods_cons_timeout launch scanOk m0 ms hl]
        refine ⟨h1, ?_, ?_⟩
        · rw [getLast_cons_of_ne_nil _ _ (by simp),
            getLast_cons_of_ne_nil _ _ (tryMethods_trace_ne_nil launch scanOk ms)]
          exact h2
        · simp only [methodsTried, List.filterMap_cons] at h3 ⊢
          simp [h3]
      · rw [tryMethods_cons_error launch scanOk m0 ms hl]
        refine ⟨h1, ?_, ?_⟩
        · rw [getLast_cons_of_ne_nil _ _ (by simp),
            getLast_cons_of_ne_nil _ _ (tryMethods_trace_ne_nil launch scanOk ms)]
          exact h2
        · simp only [methodsTried, List.filterMap_cons] at h3 ⊢
          simp [h3]

theorem tryMethods_completed_scanned (launch : Method → LaunchOutcome) (scanOk : Method → Bool) :
    ∀ ms m, launch m = LaunchOutcome.completed →
      RestartEff.tryMethod m ∈ (tryMethods launch scanOk ms).2 →
      RestartEff.sleepAfterLaunch m ∈ (tryMethods launch scanOk ms).2 ∧
        RestartEff.scanForApp m ∈ (tryMethods launch scanOk ms).2 := by
  intro ms
  induction ms with
  | nil => intro m _ hm; simp [tryMethods] at hm
  | cons m0 ms ih =>
    intro m hc hm
    rcases hl : launch m0 with _ | _ | _
    · by_cases hs : scanOk m0
      · rw [tryMethods_cons_win launch scanOk m0 ms hl hs] at hm ⊢
        simp only [List.mem_cons] at hm ⊢
        rcases hm with h | h | h | h | h
        · have hmm : m = m0 := by simpa using h
          subst hmm
          simp
        · exact absurd h (by simp)
        · exact absurd h (by simp)
        · exact absurd h (by simp)
        · simp at h
      · rw [tryMethods_cons_noscan launch scanOk m0 ms hl (by simpa using hs)] at hm ⊢
        simp only [List.mem_cons] at hm ⊢
        rcases hm with h | h | h | h | h
        · have hmm : m = m0 := by simpa using h
          subst hmm
          simp
        · exact absurd h (by simp)
        · exact absurd h (by simp)
        · exact absurd h (by simp)
        · rcases ih m hc h with ⟨ha, hb⟩
          exact ⟨by tauto, by tauto⟩
    · rw [tryMethods_cons_timeout launch scanOk m0 ms hl] at hm ⊢
      simp only [List.mem_cons] at hm ⊢
      rcases hm with h | h | h
      · have hmm : m = m0 := by simpa using h
        subst hmm
        rw [hc] at hl
        exact absurd hl (by simp)
      · exact absurd h (by simp)
      · rcases ih m hc h with ⟨ha, hb⟩
        exact ⟨by tauto, by tauto⟩
    · rw [tryMethods_cons_error launch scanOk m0 ms hl] at hm ⊢
      simp only [List.mem_cons] at hm ⊢
      rcases hm with h | h | h
      · have hmm : m = m0 := by simpa using h
        subst hmm
        rw [hc] at hl
        exact absurd hl (by simp)
      · exact absurd h (by simp)
      · rcases ih m hc h with ⟨ha, hb⟩
        exact ⟨by tauto, by tauto⟩

theorem tryMethods_timeout_no_scan (launch : Method → LaunchOutcome) (scanOk : Method → Bool) :
    ∀ ms m, launch m = LaunchOutcome.timedOut →
      RestartEff.scanForApp m ∉ (tryMethods launch scanOk ms).2 := by
  intro ms
  induction ms with
  | nil => intro m _; simp [tryMethods]
  | cons m0 ms ih =>
    intro m ht
    rcases hl : launch m0 with _ | _ | _
    · have hne : ¬ (RestartEff.scanForApp m0 = RestartEff.scanForApp m) := by
        intro he
        have : m0 = m := by simpa using he
        subst this
        rw [ht] at hl
        exact absurd hl (by simp)
      by_cases hs : scanOk m0
      · rw [tryMethods_cons_win launch scanOk m0 ms hl hs]
        simp only [List.mem_cons, not_or]
        exact ⟨by simp, by simp, fun he => hne he.symm, by simp, by simp⟩
      · rw [tryMethods_cons_noscan launch scanOk m0 ms hl (by simpa using hs)]
        simp only [List.mem_cons, not_or]
        exact ⟨by simp, by simp, fun he => hne he.symm, by simp, ih m ht⟩
    · rw [tryMethods_cons_timeout launch scanOk m0 ms hl]
      simp only [List.mem_cons, not_or]
      exact ⟨by simp, by simp, ih m ht⟩
    · rw [tryMethods_cons_error launch scanOk m0 ms hl]
      simp only [List.mem_cons, not_or]
      exact ⟨by simp, by simp, ih m ht⟩

end UpdateDaemon

/-
Claim theorems.
-/

/-- C7: for every pair of valid version strings, is_update_available is true
exactly when the parsed tuples are lexicographically ordered below one
another; compare of any valid string with itself is 0; and the four
concrete examples hold: 1.0.0 < 1.0.1, 1.0.0-1 < 1.0.0-2, not 2.0.0 < 1.9.9,
not 1.0.0 < 1.0.0. -/
theorem c7_update_available_iff_lex :
    (∀ (c l : List Char) (tc tl : Int × Int × Int × Int),
        parse_version c = some tc → parse_version l = some tl →
        (is_update_available c l = some true ↔ lexLt4 tc tl)) ∧
    (∀ (s : List Char) (t : Int × Int × Int × Int), parse_version s = some t →
        compare_versions s s = some 0) ∧
    is_update_available ("1.0.0").data ("1.0.1").data = some true ∧
    is_update_available ("1.0.0-1").data ("1.0.0-2").data = some true ∧
    is_update_available ("2.0.0").data ("1.9.9").data = some false ∧
    is_update_available ("1.0.0").data ("1.0.0").data = some false := by
  refine ⟨?_, ?_, by decide, by decide, by decide, by decide⟩
  · intro c l tc tl hc hl
    have hcv : compare_versions c l =
        some (if tupleLtPy tc tl then -1 else if tupleLtPy tl tc then 1 else 0) := by
      unfold compare_versions
      rw [hc, hl]
    unfold is_update_available
    rw [hcv]
    simp only [Option.map_some', Option.some.injEq, decide_eq_true_eq]
    by_cases h : tupleLtPy tc tl = true
    · rw [if_pos h]
      exact iff_of_true (by norm_num) ((tupleLtPy_iff_lexLt4 tc tl).mp h)
    · rw [if_neg h]
      have hnl : ¬ lexLt4 tc tl := fun hlex => h ((tupleLtPy_iff_lexLt4 tc tl).mpr hlex)
      by_cases h2 : tupleLtPy tl tc = true
      · rw [if_pos h2]
        exact iff_of_false (by norm_num) hnl
      · rw [if_neg h2]
        exact iff_of_false (by norm_num) hnl
  · intro s t hs
    have hcv : compare_versions s s =
        some (if tupleLtPy t t then -1 else if tupleLtPy t t then 1 else 0) := by
      unfold compare_versions
      rw [hs]
    rw [hcv, tupleLtPy_irrefl]
    simp

/-- C7 witness: the characterization applied at 1.2.3 versus 1.2.4, and
reflexivity of compare at 1.2.3. -/
theorem c7_update_available_iff_lex_witness :
    (is_update_available ("1.2.3").data ("1.2.4").data = some true ↔
      lexLt4 (1, 2, 3, 0) (1, 2, 4, 0)) ∧
    compare_versions ("1.2.3").data ("1.2.3").data = some 0 :=
  ⟨c7_update_available_iff_lex.1 ("1.2.3").data ("1.2.4").data (1, 2, 3, 0) (1, 2, 4, 0)
      (by decide) (by decide),
   c7_update_available_iff_lex.2.1 ("1.2.3").data (1, 2, 3, 0) (by decide)⟩

/-- C8 counterexample: on the input 1.0.0-2-3, which contains two dashes,
parse_version returns release 2, the integer between the FIRST and second
dash, whereas the claimed split at the LAST dash would reject the input
(its main version 1.0.0-2 has the non-numeric component 0-2); the two
readings disagree on this input. -/
theorem c8_last_dash_counterexample :
    parse_version ("1.0.0-2-3").data = some (1, 0, 0, 2) ∧
    parse_version_lastdash ("1.0.0-2-3").data = none ∧
    parse_version_lastdash ("1.0.0-2-3").data ≠ parse_version ("1.0.0-2-3").data := by
  exact ⟨by decide, by decide, by decide⟩

/-- C8 (amended): parse strips a leading v and surrounding whitespace, then
splits the string on the FIRST dash: everything before the first dash is
the main version and the release ordinal is the integer parsed from the
segment between the first and the second dash (0 when no dash is present);
any characters after a second dash are ignored. -/
theorem c8_first_dash_amended :
    ∀ s : List Char, parse_version s = parse_version_firstdash s :=
  parse_eq_firstdash

/-- C9: for every valid version string, formatting the parsed tuple and
re-parsing returns the same tuple. -/
theorem c9_parse_format_roundtrip :
    ∀ (s : List Char) (a b c r : Int), parse_version s = some (a, b, c, r) →
      parse_version (format_version a b c r) = some (a, b, c, r) := by
  intro s a b c r h
  obtain ⟨ha, hb, hc, hr⟩ := parse_version_nonneg s a b c r h
  obtain ⟨cA, A', hA⟩ := List.exists_cons_of_ne_nil (natRepr_spec a.toNat).2.1
  have hdA : ∀ x ∈ cA :: A', x.isDigit = true := by
    rw [← hA]
    exact (natRepr_spec a.toNat).1
  have hvA : Int.ofNat (digitsToNat (cA :: A')) = a := by
    rw [← hA, (natRepr_spec a.toNat).2.2]
    exact_mod_cast Int.toNat_of_nonneg ha
  have hvB : Int.ofNat (digitsToNat (natRepr b.toNat)) = b := by
    rw [(natRepr_spec b.toNat).2.2]
    exact_mod_cast Int.toNat_of_nonneg hb
  have hvC : Int.ofNat (digitsToNat (natRepr c.toNat)) = c := by
    rw [(natRepr_spec c.toNat).2.2]
    exact_mod_cast Int.toNat_of_nonneg hc
  have hvR : Int.ofNat (digitsToNat (natRepr r.toNat)) = r := by
    rw [(natRepr_spec r.toNat).2.2]
    exact_mod_cast Int.toNat_of_nonneg hr
  by_cases hrpos : 0 < r
  · have hfmt : format_version a b c r =
        ((cA :: A') ++ ('.' :: (natRepr b.toNat ++ ('.' :: natRepr c.toNat)))) ++
          ('-' :: natRepr r.toNat) := by
      unfold format_version
      rw [if_pos hrpos, intRepr_nonneg a ha, intRepr_nonneg b hb, intRepr_nonneg c hc,
        intRepr_nonneg r hr, hA]
      simp [List.append_assoc]
    rw [hfmt, parse_version_canonical_rel_core cA A' (natRepr b.toNat) (natRepr c.toNat)
      (natRepr r.toNat) (natRepr_spec b.toNat).2.1 (natRepr_spec c.toNat).2.1
      (natRepr_spec r.toNat).2.1 hdA (natRepr_spec b.toNat).1 (natRepr_spec c.toNat).1
      (natRepr_spec r.toNat).1]
    rw [hvA, hvB, hvC, hvR]
  · have hr0 : r = 0 := by omega
    subst hr0
    have hfmt : format_version a b c 0 =
        (cA :: A') ++ ('.' :: (natRepr b.toNat ++ ('.' :: natRepr c.toNat))) := by
      unfold format_version
      rw [if_neg (by omega), intRepr_nonneg a ha, intRepr_nonneg b hb, intRepr_nonneg c hc, hA]
      simp [List.append_assoc]
    rw [hfmt, parse_version_canonical_core cA A' (natRepr b.toNat) (natRepr c.toNat)
      (natRepr_spec b.toNat).2.1 (natRepr_spec c.toNat).2.1 hdA
      (natRepr_spec b.toNat).1 (natRepr_spec c.toNat).1]
    rw [hvA, hvB, hvC]

/-- C9 witness: the round trip at v1.2.3-4. -/
theorem c9_parse_format_roundtrip_witness :
    parse_version ("v1.2.3-4").data = some (1, 2, 3, 4) ∧
    parse_version (format_version 1 2 3 4) = some (1, 2, 3, 4) :=
  ⟨by decide, c9_parse_format_roundtrip ("v1.2.3-4").data 1 2 3 4 (by decide)⟩

/-- C10: parse silently ignores dot-separated components of the main
version beyond the third, numeric or not: 1.2.3.4 and 1.2.3.abc both parse
to (1, 2, 3, 0), and in general any dash-free, whitespace-free tail after
"1.2.3." is dropped. -/
theorem c10_extra_components_ignored :
    parse_version ("1.2.3.4").data = some (1, 2, 3, 0) ∧
    parse_version ("1.2.3.abc").data = some (1, 2, 3, 0) ∧
    (∀ junk : List Char, ('-') ∉ junk → (∀ x ∈ junk, pyWs x = false) →
      parse_version (("1.2.3.").data ++ junk) = some (1, 2, 3, 0)) := by
  refine ⟨by decide, by decide, ?_⟩
  intro junk hnd hws
  have hdata : ("1.2.3.").data = ['1', '.', '2', '.', '3', '.'] := rfl
  rw [hdata]
  have hwsW : ∀ x ∈ (['1', '.', '2', '.', '3', '.'] : List Char) ++ junk,
      pyWs x = false := by
    intro x hx
    rcases List.mem_append.mp hx with h | h
    · simp only [List.mem_cons, List.not_mem_nil, or_false] at h
      rcases h with rfl | rfl | rfl | rfl | rfl | rfl <;> decide
    · exact hws x h
  have hstrip := pyStrip_eq_self _ hwsW
  have hdropW : ((['1', '.', '2', '.', '3', '.'] : List Char) ++ junk).dropWhile
      (fun c => c = 'v') = (['1', '.', '2', '.', '3', '.'] : List Char) ++ junk := by
    exact dropWhile_eq_self_of_head _ '1' _ (by decide)
  have hndW : ('-') ∉ (['1', '.', '2', '.', '3', '.'] : List Char) ++ junk := by
    intro hm
    rcases List.mem_append.mp hm with h | h
    · simp at h
    · exact hnd h
  have hsplitD := pySplit_no_sep '-' _ hndW
  have hsplitDot : pySplit '.' ((['1', '.', '2', '.', '3', '.'] : List Char) ++ junk) =
      ['1'] :: ['2'] :: ['3'] :: pySplit '.' junk := by
    have e1 : (['1', '.', '2', '.', '3', '.'] : List Char) ++ junk =
        ['1'] ++ '.' :: ((['2', '.', '3', '.'] : List Char) ++ junk) := rfl
    rw [e1, pySplit_append '.' ['1'] _ (by decide)]
    have e2 : (['2', '.', '3', '.'] : List Char) ++ junk =
        ['2'] ++ '.' :: ((['3', '.'] : List Char) ++ junk) := rfl
    rw [e2, pySplit_append '.' ['2'] _ (by decide)]
    have e3 : (['3', '.'] : List Char) ++ junk = ['3'] ++ '.' :: junk := rfl
    rw [e3, pySplit_append '.' ['3'] _ (by decide)]
  have hlen : 0 < (pySplit '.' junk).length :=
    List.length_pos.mpr (pySplit_ne_nil '.' junk)
  simp only [parse_version, hstrip, hdropW, hsplitD, List.headD_cons, hsplitDot,
    List.length_cons, List.length_nil, List.getD_cons_zero, List.getD_cons_succ]
  rw [if_pos (by omega), if_pos (by omega), if_pos (by omega), if_neg (by omega)]
  rw [show pyInt ['1'] = some 1 from by decide, show pyInt ['2'] = some 2 from by decide,
    show pyInt ['3'] = some 3 from by decide]

/-- C10 witness: the general tail fact applied at the non-numeric tail xy. -/
theorem c10_extra_components_ignored_witness :
    parse_version (("1.2.3.").data ++ ['x', 'y']) = some (1, 2, 3, 0) :=
  c10_extra_components_ignored.2.2 ['x', 'y'] (by decide) (by decide)

namespace UpdateDaemon

theorem stop_shape (pf : Option (List Char)) (alive : Nat → Bool)
    (h : get_pid pf ≠ 0) :
    ∃ mid : List StopEff, stop pf alive =
      (none, StopEff.sigTerm (get_pid pf) :: (mid ++ [StopEff.removePid])) := by
  unfold stop
  rw [if_neg h]
  by_cases h0 : alive 0 = true
  · rw [if_pos h0]
    by_cases h2 : (stopPoll (get_pid pf) alive 1 30).2 = true
    · refine ⟨(stopPoll (get_pid pf) alive 1 30).1 ++ [StopEff.sigKill (get_pid pf)] ++
        (if alive 31 then [StopEff.logStopped] else [StopEff.logFailed]), ?_⟩
      simp [h2, List.cons_append, List.append_assoc]
    · refine ⟨(stopPoll (get_pid pf) alive 1 30).1 ++ [StopEff.logStopped], ?_⟩
      simp [h2, List.cons_append, List.append_assoc]
  · rw [if_neg h0]
    exact ⟨[StopEff.logFailed], rfl⟩

end UpdateDaemon

namespace UpdateDaemon

/-- C1: in the poll loop, a tick whose check-and-update cycle raises is
caught and logged, advances lastCheck to the current time; the advancement
is identical to that of a successful cycle; and a loop fed any schedule of
signal-free ticks executes every one of them — no cycle error terminates
the loop or leaves the Running state. -/
theorem c1_poll_loop_error_resilient :
    (∀ (interval : Int) (lastCheck : Option Int) (t : TickInput) (e : List Char),
        t.result = Except.error e → dueAt interval lastCheck t.now = true →
        run_tick interval lastCheck t =
          (some t.now, [RunEff.logChecking, RunEff.logError e, RunEff.sleepTick])) ∧
    (∀ (interval : Int) (lastCheck : Option Int) (t : TickInput),
        dueAt interval lastCheck t.now = true →
        (run_tick interval lastCheck t).1 = some t.now) ∧
    (∀ (interval : Int) (lastCheck : Option Int) (ts : List TickInput),
        (∀ t ∈ ts, t.signal = false) →
        List.count RunEff.sleepTick (run_loop interval lastCheck ts).2 = ts.length) := by
  refine ⟨?_, ?_, fun interval lastCheck ts hs => run_loop_ticks_all interval ts lastCheck hs⟩
  · intro interval lastCheck t e he hdue
    unfold run_tick
    rw [if_pos hdue, he]
    rfl
  · intro interval lastCheck t hdue
    unfold run_tick
    rw [if_pos hdue]

/-- C1 witness: a due error tick at clock 5 is logged and advances
lastCheck to 5; a due successful tick advances identically; a one-tick
signal-free schedule with an erroring cycle still runs its tick. -/
theorem c1_poll_loop_error_resilient_witness :
    run_tick 0 none ⟨5, Except.error ['x'], false⟩ =
      (some 5, [RunEff.logChecking, RunEff.logError ['x'], RunEff.sleepTick]) ∧
    (run_tick 0 none ⟨7, Except.ok true, false⟩).1 = some 7 ∧
    List.count RunEff.sleepTick
      (run_loop 0 none [⟨5, Except.error ['x'], false⟩]).2 = 1 :=
  ⟨c1_poll_loop_error_resilient.1 0 none ⟨5, Except.error ['x'], false⟩ ['x'] rfl rfl,
   c1_poll_loop_error_resilient.2.1 0 none ⟨7, Except.ok true, false⟩ rfl,
   c1_poll_loop_error_resilient.2.2 0 none [⟨5, Except.error ['x'], false⟩]
     (by
       intro t ht
       rw [List.mem_singleton] at ht
       subst ht
       rfl)⟩

/-- C2: stop with PID sentinel 0 only reports "not running" and changes
nothing; with a nonzero PID it always starts with SIGTERM, always ends by
removing the PID file and leaves no file behind; if the process stays
alive through the whole bounded wait it receives SIGKILL after exactly 30
poll sleeps; if the process dies during the wait no SIGKILL is ever sent;
and the wait is bounded by 30 sleeps in every execution. -/
theorem c2_stop_spec :
    (∀ (pf : Option (List Char)) (alive : Nat → Bool), get_pid pf = 0 →
      stop pf alive = (pf, [StopEff.logNotRunning])) ∧
    (∀ (pf : Option (List Char)) (alive : Nat → Bool), get_pid pf ≠ 0 →
      (stop pf alive).1 = none ∧
      (stop pf alive).2.head? = some (StopEff.sigTerm (get_pid pf)) ∧
      (stop pf alive).2.getLast? = some StopEff.removePid) ∧
    (∀ (pf : Option (List Char)) (alive : Nat → Bool), get_pid pf ≠ 0 →
      (∀ t, t ≤ 31 → alive t = true) →
      StopEff.sigKill (get_pid pf) ∈ (stop pf alive).2 ∧
      List.count StopEff.sleepPoll (stop pf alive).2 = 30) ∧
    (∀ (pf : Option (List Char)) (alive : Nat → Bool), get_pid pf ≠ 0 →
      alive 0 = true → (∃ k, 1 ≤ k ∧ k ≤ 30 ∧ alive k = false) →
      ∀ q, StopEff.sigKill q ∉ (stop pf alive).2) ∧
    (∀ (pf : Option (List Char)) (alive : Nat → Bool),
      List.count StopEff.sleepPoll (stop pf alive).2 ≤ 30) := by
  refine ⟨?_, ?_, ?_, ?_, ?_⟩
  · intro pf alive h
    unfold stop
    rw [if_pos h]
  · intro pf alive h
    obtain ⟨mid, hm⟩ := stop_shape pf alive h
    rw [hm]
    refine ⟨rfl, rfl, ?_⟩
    rw [getLast_cons_of_ne_nil _ _ (by simp), getLast_append_ne mid _ (by simp)]
    rfl
  · intro pf alive h hall
    have h0 : alive 0 = true := hall 0 (by omega)
    have h2 : (stopPoll (get_pid pf) alive 1 30).2 = true := by
      rw [stopPoll_completed_iff]
      intro i hi
      exact hall (1 + i) (by omega)
    have h31 : alive 31 = true := hall 31 (by omega)
    have hcnt := stopPoll_sleep_of_completed (get_pid pf) alive 30 1 h2
    constructor
    · unfold stop
      rw [if_neg h, if_pos h0]
      simp [h2, h31]
    · unfold stop
      rw [if_neg h, if_pos h0]
      simp [h2, h31, List.count_append, List.count_cons, hcnt]
  · intro pf alive h h0 hex q
    obtain ⟨k, hk1, hk30, hkd⟩ := hex
    have h2 : (stopPoll (get_pid pf) alive 1 30).2 = false := by
      rcases hv : (stopPoll (get_pid pf) alive 1 30).2
      · rfl
      · exfalso
        have hal := (stopPoll_completed_iff (get_pid pf) alive 30 1).mp hv (k - 1) (by omega)
        rw [show 1 + (k - 1) = k from by omega] at hal
        rw [hal] at hkd
        exact Bool.noConfusion hkd
    have hnos := stopPoll_no_sigkill (get_pid pf) alive 30 1 q
    unfold stop
    rw [if_neg h, if_pos h0]
    simp only [h2, Bool.false_eq_true, if_false]
    simp only [List.mem_cons, List.mem_append, not_or]
    exact ⟨⟨by simp, hnos⟩, by simp, by simp⟩
  · intro pf alive
    by_cases h : get_pid pf = 0
    · unfold stop
      rw [if_pos h]
      simp
    · unfold stop
      rw [if_neg h]
      by_cases h0 : alive 0 = true
      · rw [if_pos h0]
        have hle := stopPoll_sleep_le (get_pid pf) alive 30 1
        by_cases h2 : (stopPoll (get_pid pf) alive 1 30).2 = true
        · simp only [h2, if_true]
          rcases h31 : alive 31 <;>
            simp [h31, List.count_append, List.count_cons] <;> omega
        · simp only [h2, Bool.false_eq_true, if_false]
          simp [List.count_append, List.count_cons]
          omega
      · rw [if_neg h0]
        simp

/-- C2 witness: stop on an absent PID file reports not running; stop on
PID 7 with an immortal process SIGTERMs, sleeps 30 times, SIGKILLs and
removes the file; stop on PID 7 with a process that dies at the first
poll never SIGKILLs. -/
theorem c2_stop_spec_witness :
    stop none (fun _ => true) = (none, [StopEff.logNotRunning]) ∧
    (StopEff.sigKill 7 ∈ (stop (some ("7").data) (fun _ => true)).2 ∧
      List.count StopEff.sleepPoll (stop (some ("7").data) (fun _ => true)).2 = 30) ∧
    (∀ q, StopEff.sigKill q ∉
      (stop (some ("7").data) (fun t => decide (t = 0))).2) :=
  ⟨c2_stop_spec.1 none (fun _ => true) rfl,
   c2_stop_spec.2.2.1 (some ("7").data) (fun _ => true) (by decide)
     (fun t _ => rfl),
   c2_stop_spec.2.2.2.1 (some ("7").data) (fun t => decide (t = 0)) (by decide) (by decide)
     ⟨1, by omega, by omega, by decide⟩⟩

/-- C3: is_running reports false for the sentinel 0 (file absent,
unparsable, or literally 0); when the named process fails the liveness
probe it removes the stale PID file and reports false; when the probe
succeeds it reports true and leaves the file alone. -/
theorem c3_is_running_stale_cleanup :
    (∀ alive : Int → Bool, is_running none alive = (false, none)) ∧
    (∀ (content : List Char) (alive : Int → Bool), pyInt (pyStrip content) = none →
      is_running (some content) alive = (false, some content)) ∧
    (∀ (pf : Option (List Char)) (alive : Int → Bool), get_pid pf = 0 →
      is_running pf alive = (false, pf)) ∧
    (∀ (pf : Option (List Char)) (alive : Int → Bool), get_pid pf ≠ 0 →
      alive (get_pid pf) = false → is_running pf alive = (false, none)) ∧
    (∀ (pf : Option (List Char)) (alive : Int → Bool), get_pid pf ≠ 0 →
      alive (get_pid pf) = true → is_running pf alive = (true, pf)) := by
  refine ⟨?_, ?_, ?_, ?_, ?_⟩
  · intro alive
    simp [is_running, get_pid]
  · intro content alive h
    simp [is_running, get_pid, h]
  · intro pf alive h
    simp [is_running, h]
  · intro pf alive h1 h2
    simp [is_running, h1, h2]
  · intro pf alive h1 h2
    simp [is_running, h1, h2]

/-- C3 witness: an unparsable PID file reports not running and is kept; a
dead PID 7 reports not running and the stale file is removed; a live PID 7
reports running with the file untouched. -/
theorem c3_is_running_stale_cleanup_witness :
    is_running (some ("abc").data) (fun _ => true) = (false, some ("abc").data) ∧
    is_running (some ("7").data) (fun _ => false) = (false, none) ∧
    is_running (some ("7").data) (fun _ => true) = (true, some ("7").data) :=
  ⟨c3_is_running_stale_cleanup.2.1 ("abc").data (fun _ => true) (by decide),
   c3_is_running_stale_cleanup.2.2.2.1 (some ("7").data) (fun _ => false) (by decide) rfl,
   c3_is_running_stale_cleanup.2.2.2.2 (some ("7").data) (fun _ => true) (by decide) rfl⟩

/-- C4: when is_running reports true, start only logs "already running"
and returns: the PID file is unchanged, and the trace has no daemonize, no
PID write, no signal-handler registration and no entry into the run
loop. -/
theorem c4_start_already_running_noop :
    ∀ (d : Bool) (pf : Option (List Char)) (alive : Int → Bool) (p : Nat),
      (is_running pf alive).1 = true →
      start d pf alive p = (pf, [StartEff.logAlreadyRunning]) ∧
      StartEff.daemonize ∉ (start d pf alive p).2 ∧
      (∀ q : Int, StartEff.writePid q ∉ (start d pf alive p).2) ∧
      StartEff.registerSignalHandlers ∉ (start d pf alive p).2 ∧
      StartEff.enterRunLoop ∉ (start d pf alive p).2 := by
  intro d pf alive p h
  have h2 := is_running_fst_true pf alive h
  have hst : start d pf alive p = (pf, [StartEff.logAlreadyRunning]) := by
    simp [start, h, h2]
  refine ⟨hst, ?_, ?_, ?_, ?_⟩
  · rw [hst]; simp
  · intro q; rw [hst]; simp
  · rw [hst]; simp
  · rw [hst]; simp

/-- C4 witness: a second start while PID 7 is alive is a pure log
no-op. -/
theorem c4_start_already_running_noop_witness :
    start true (some ("7").data) (fun _ => true) 9 =
      (some ("7").data, [StartEff.logAlreadyRunning]) :=
  (c4_start_already_running_noop true (some ("7").data) (fun _ => true) 9 (by decide)).1

/-- C5 counterexample: when every launch attempt times out, all three
mechanisms are attempted (in order runuser, sudo, su) but the procedure
never waits and re-scans after any of them — even though the scanner
would have reported a live process — because the TimeoutExpired handler
skips the sleep and pgrep check.  This contradicts the claim that every
attempt is followed by a wait and re-scan. -/
theorem c5_timeout_skips_rescan_counterexample :
    restart_privileged (fun _ => LaunchOutcome.timedOut) (fun _ => true) =
      (false,
       [RestartEff.tryMethod Method.runuser, RestartEff.logTimeout Method.runuser,
        RestartEff.tryMethod Method.sudo, RestartEff.logTimeout Method.sudo,
        RestartEff.tryMethod Method.su, RestartEff.logTimeout Method.su,
        RestartEff.logAllFailed]) ∧
    RestartEff.tryMethod Method.runuser ∈
      (restart_privileged (fun _ => LaunchOutcome.timedOut) (fun _ => true)).2 ∧
    RestartEff.scanForApp Method.runuser ∉
      (restart_privileged (fun _ => LaunchOutcome.timedOut) (fun _ => true)).2 ∧
    RestartEff.scanForApp Method.sudo ∉
      (restart_privileged (fun _ => LaunchOutcome.timedOut) (fun _ => true)).2 ∧
    RestartEff.scanForApp Method.su ∉
      (restart_privileged (fun _ => LaunchOutcome.timedOut) (fun _ => true)).2 ∧
    RestartEff.sleepAfterLaunch Method.runuser ∉
      (restart_privileged (fun _ => LaunchOutcome.timedOut) (fun _ => true)).2 := by
  exact ⟨by decide, by decide, by decide, by decide, by decide, by decide⟩

/-- C5 (amended): the privileged restart tries the three mechanisms in the
fixed order runuser, sudo, su (the attempted methods are always a forward
segment of that order); it succeeds exactly when some mechanism completes
its launch and the subsequent re-scan finds a live matching process; at
the first such mechanism it logs success as its final act and returns
immediately with no failure log; if no mechanism succeeds, all three are
attempted and an explicit error is the final log entry — the procedure
still returns normally; after every attempt that completes without a
timeout or exception it waits and re-scans before deciding; a timed-out
attempt is logged and skipped without a re-scan. -/
theorem c5_restart_methods_amended :
    ∀ (launch : Method → LaunchOutcome) (scanOk : Method → Bool),
      (∃ k, methodsTried (restart_privileged launch scanOk).2 = methodOrder.take k) ∧
      ((restart_privileged launch scanOk).1 = true ↔
        ∃ m ∈ methodOrder, launch m = LaunchOutcome.completed ∧ scanOk m = true) ∧
      (∀ m, firstWinner launch scanOk = some m →
        (restart_privileged launch scanOk).1 = true ∧
        (restart_privileged launch scanOk).2.getLast? = some (RestartEff.logSuccess m) ∧
        RestartEff.logAllFailed ∉ (restart_privileged launch scanOk).2) ∧
      (firstWinner launch scanOk = none →
        (restart_privileged launch scanOk).1 = false ∧
        (restart_privileged launch scanOk).2.getLast? = some RestartEff.logAllFailed ∧
        methodsTried (restart_privileged launch scanOk).2 = methodOrder) ∧
      (∀ m, launch m = LaunchOutcome.completed →
        RestartEff.tryMethod m ∈ (restart_privileged launch scanOk).2 →
        RestartEff.sleepAfterLaunch m ∈ (restart_privileged launch scanOk).2 ∧
        RestartEff.scanForApp m ∈ (restart_privileged launch scanOk).2) ∧
      (∀ m, launch m = LaunchOutcome.timedOut →
        RestartEff.scanForApp m ∉ (restart_privileged launch scanOk).2) := by
  intro launch scanOk
  exact ⟨tryMethods_tried_take launch scanOk methodOrder,
    tryMethods_fst_iff launch scanOk methodOrder,
    fun m hm => tryMethods_find_some launch scanOk methodOrder m hm,
    fun hm => tryMethods_find_none launch scanOk methodOrder hm,
    fun m hc hm => tryMethods_completed_scanned launch scanOk methodOrder m hc hm,
    fun m ht => tryMethods_timeout_no_scan launch scanOk methodOrder m ht⟩

/-- C5 witness: with every launch completing and every re-scan finding the
process, the first winner is runuser: the procedure reports success, logs
success for runuser last and never logs the all-failed error. -/
theorem c5_restart_methods_amended_witness :
    (restart_privileged (fun _ => LaunchOutcome.completed) (fun _ => true)).1 = true ∧
    (restart_privileged (fun _ => LaunchOutcome.completed) (fun _ => true)).2.getLast? =
      some (RestartEff.logSuccess Method.runuser) ∧
    RestartEff.logAllFailed ∉
      (restart_privileged (fun _ => LaunchOutcome.completed) (fun _ => true)).2 :=
  (c5_restart_methods_amended (fun _ => LaunchOutcome.completed) (fun _ => true)).2.2.1
    Method.runuser (by decide)

/-- C6 counterexample: a raising first probe (loginctl failure) aborts the
cascade: the second probe would report user a, yet the code returns no
user (after logging the caught exception), while the per-probe protected
cascade the claim describes would return a.  The later probes are thus not
attempted after an earlier probe raises. -/
theorem c6_probe_exception_counterexample :
    locate_user (Except.error ("boom").data) (Except.ok (some ("a").data))
        (Except.ok none) = (none, true) ∧
    locate_user_resilient (Except.error ("boom").data) (Except.ok (some ("a").data))
        (Except.ok none) = some ("a").data ∧
    (locate_user (Except.error ("boom").data) (Except.ok (some ("a").data))
        (Except.ok none)).1 ≠
      locate_user_resilient (Except.error ("boom").data) (Except.ok (some ("a").data))
        (Except.ok none) := by
  exact ⟨rfl, rfl, by decide⟩

/-- C6 (amended): the locator tries its probes in order and short-circuits
on the first non-empty username, but the three probes run inside a single
protective region: an exception raised by a probe aborts the remaining
probes and is caught and logged at the cascade boundary rather than
propagated; whether by exhaustion or by an aborted cascade, finding no
user is a defined negative result that sends the restart to the
privilege-unaware fallback launch. -/
theorem c6_locator_cascade_amended :
    ∀ p1 p2 p3 : Except (List Char) (Option (List Char)),
      (∀ u, p1 = Except.ok (some u) → locate_user p1 p2 p3 = (some u, false)) ∧
      (∀ u, p1 = Except.ok none → p2 = Except.ok (some u) →
        locate_user p1 p2 p3 = (some u, false)) ∧
      (∀ u, p1 = Except.ok none → p2 = Except.ok none → p3 = Except.ok (some u) →
        locate_user p1 p2 p3 = (some u, false)) ∧
      (∀ e, p1 = Except.error e → locate_user p1 p2 p3 = (none, true)) ∧
      (∀ e, p1 = Except.ok none → p2 = Except.error e →
        locate_user p1 p2 p3 = (none, true)) ∧
      (∀ e, p1 = Except.ok none → p2 = Except.ok none → p3 = Except.error e →
        locate_user p1 p2 p3 = (none, true)) ∧
      (p1 = Except.ok none → p2 = Except.ok none → p3 = Except.ok none →
        locate_user p1 p2 p3 = (none, false)) ∧
      (∀ uid : Option Int, (locate_user p1 p2 p3).1 = none →
        restart_dispatch (locate_user p1 p2 p3).1 uid = LaunchPath.fallback) := by
  intro p1 p2 p3
  refine ⟨?_, ?_, ?_, ?_, ?_, ?_, ?_, ?_⟩
  · intro u h1
    subst h1
    rfl
  · intro u h1 h2
    subst h1
    subst h2
    rfl
  · intro u h1 h2 h3
    subst h1
    subst h2
    subst h3
    rfl
  · intro e h1
    subst h1
    rfl
  · intro e h1 h2
    subst h1
    subst h2
    rfl
  · intro e h1 h2 h3
    subst h1
    subst h2
    subst h3
    rfl
  · intro h1 h2 h3
    subst h1
    subst h2
    subst h3
    rfl
  · intro uid h
    rw [h]
    rfl

/-- C6 witness: with the first probe reporting no user and the second
reporting user a, the cascade returns a; and a no-user outcome dispatches
to the fallback launch. -/
theorem c6_locator_cascade_amended_witness :
    locate_user (Except.ok none) (Except.ok (some ("a").data)) (Except.ok none) =
      (some ("a").data, false) ∧
    restart_dispatch
      (locate_user (Except.error ("boom").data) (Except.ok none) (Except.ok none)).1
      (some 1000) = LaunchPath.fallback :=
  ⟨(c6_locator_cascade_amended (Except.ok none) (Except.ok (some ("a").data))
      (Except.ok none)).2.1 ("a").data rfl rfl,
   (c6_locator_cascade_amended (Except.error ("boom").data) (Except.ok none)
      (Except.ok none)).2.2.2.2.2.2.2 (some 1000) rfl⟩

end UpdateDaemon
